import Mathlib

/-!
Verification of the kmatch sponsor-matching engine.

The JavaScript sources are embedded shallowly: strings are lists of
characters, every function is translated into an executable Lean
definition, and the claims of the specification are settled as theorems
about those definitions.  The embedding models names over the character
set actually exercised by the data (case mapping and character classes
are the ASCII ones; the regular expressions of the sources are executed
by a small backtracking matcher that follows the JavaScript semantics of
ordered alternation, greedy optional parts and word boundaries).
-/

set_option maxRecDepth 20000

namespace KMatch

/-- A JavaScript string, modelled as its list of characters. -/
abbrev JStr := List Char

/-- Characters treated as whitespace by the JavaScript functions used in the
sources (trim and the regex class backslash-s): tab, line feed, vertical tab,
form feed, carriage return, space and no-break space. -/
def isJsSpace (c : Char) : Bool :=
  c.toNat = 9 || c.toNat = 10 || c.toNat = 11 || c.toNat = 12 || c.toNat = 13 ||
    c.toNat = 32 || c.toNat = 160

/-- ASCII lower-casing of one character; model of JavaScript toLowerCase. -/
def asciiLower (c : Char) : Char :=
  if 65 ≤ c.toNat ∧ c.toNat ≤ 90 then Char.ofNat (c.toNat + 32) else c

/-- ASCII upper-casing of one character; model of JavaScript toUpperCase. -/
def asciiUpper (c : Char) : Char :=
  if 97 ≤ c.toNat ∧ c.toNat ≤ 122 then Char.ofNat (c.toNat - 32) else c

/-- The word characters of the regex class backslash-w: ASCII letters,
digits and the underscore. -/
def isWordChar (c : Char) : Bool :=
  (65 ≤ c.toNat && c.toNat ≤ 90) || (97 ≤ c.toNat && c.toNat ≤ 122) ||
    (48 ≤ c.toNat && c.toNat ≤ 57) || c.toNat = 95

/-- Lower-case a whole string. -/
def lowerStr (s : JStr) : JStr := s.map asciiLower

/-- Upper-case a whole string. -/
def upperStr (s : JStr) : JStr := s.map asciiUpper

/-- JavaScript String.prototype.trim. -/
def jsTrim (s : JStr) : JStr :=
  ((s.dropWhile isJsSpace).reverse.dropWhile isJsSpace).reverse

/-- Insertion into a JavaScript Set whose iteration order is insertion
order: append the element unless it is already present. -/
def setAdd (l : List JStr) (s : JStr) : List JStr :=
  if s ∈ l then l else l ++ [s]

/-- Lookup in an association list, first match wins.  This is the get of a
JavaScript Map or plain object, whose keys are unique by construction. -/
def assocGet {α : Type} : List (JStr × α) → JStr → Option α
  | [], _ => none
  | p :: ps, k => if p.1 = k then some p.2 else assocGet ps k

/-- JavaScript Map.set / object assignment: replace the value of an
existing key in place, otherwise append the new key. -/
def jsSet {α : Type} (m : List (JStr × α)) (k : JStr) (v : α) : List (JStr × α) :=
  if (assocGet m k).isSome then m.map (fun p => if p.1 = k then (k, v) else p)
  else m ++ [(k, v)]

/-- The push-into-the-list-at-a-key pattern of the index builders:
get the list at the key (empty when absent) and append one id. -/
def jsPush (m : List (JStr × List JStr)) (k : JStr) (v : JStr) : List (JStr × List JStr) :=
  jsSet m k (((assocGet m k).getD []) ++ [v])

/-! ### A small regex matcher

The sources use global replacement with patterns of the shape
word-boundary, ordered alternation of literal words (some with optional
dots inside), word-boundary, optional trailing dot.  The matcher below
implements exactly the JavaScript semantics for that fragment: ordered
alternation with backtracking, greedy optional dots, and word boundaries
computed from the characters around a position. -/

/-- One token of a regex alternative: a literal character or an optional
literal dot. -/
inductive RTok where
  | lit : Char → RTok
  | optDot : RTok
deriving DecidableEq

/-- Is this (possibly absent) character a word character? -/
def wordish : Option Char → Bool
  | some c => isWordChar c
  | none => false

/-- A word boundary sits between two positions whose word-character
status differs; absent characters (string ends) count as non-word. -/
def atBoundary (prev next : Option Char) : Bool :=
  wordish prev != wordish next

/-- Match a list of alternative tokens against the input with JavaScript
backtracking (greedy optional dots first), threading the last consumed
character and calling the continuation on success. -/
def matchToks (k : List Char → Option Char → Option (List Char × Option Char)) :
    List RTok → List Char → Option Char → Option (List Char × Option Char)
  | [], s, prev => k s prev
  | RTok.lit c :: ts, s, _ =>
    match s with
    | [] => none
    | c' :: rest => if c' = c then matchToks k ts rest (some c') else none
  | RTok.optDot :: ts, s, prev =>
    (match s with
     | '.' :: rest => matchToks k ts rest (some '.')
     | _ => none).orElse (fun _ => matchToks k ts s prev)

/-- What follows the alternation group in the pattern: a word boundary
and, when trailDot is set, a greedy optional literal dot. -/
def groupTail (trailDot : Bool) (s : List Char) (last : Option Char) :
    Option (List Char × Option Char) :=
  if atBoundary last s.head? then
    if trailDot then
      match s with
      | '.' :: rest => some (rest, some '.')
      | _ => some (s, last)
    else some (s, last)
  else none

/-- Try the alternatives of the group in order (JavaScript ordered
alternation): the first alternative for which the whole rest of the
pattern succeeds wins. -/
def tryAlts (trailDot : Bool) : List (List RTok) → Option Char → List Char →
    Option (List Char × Option Char)
  | [], _, _ => none
  | a :: as, prev, s =>
    (matchToks (groupTail trailDot) a s prev).orElse
      (fun _ => tryAlts trailDot as prev s)

/-- Global replacement with the empty string: scan left to right; at each
position whose left side is a word boundary try the pattern, drop the
matched characters on success and continue after them, otherwise keep one
character and move on.  Fuel is the input length plus one; every match
consumes at least one character, so the fuel never runs out. -/
def scanReplace (alts : List (List RTok)) (trailDot : Bool) :
    Nat → Option Char → List Char → List Char
  | 0, _, s => s
  | _ + 1, _, [] => []
  | fuel + 1, prev, c :: rest =>
    match (if atBoundary prev (some c) then tryAlts trailDot alts prev (c :: rest)
           else none) with
    | some (rem, last) => scanReplace alts trailDot fuel last rem
    | none => c :: scanReplace alts trailDot fuel (some c) rest

/-- Remove every match of the given boundary-delimited alternation from
the string. -/
def regexRemove (alts : List (List RTok)) (trailDot : Bool) (s : List Char) : List Char :=
  scanReplace alts trailDot (s.length + 1) none s

/-- Literal regex alternative from a string. -/
def lits (s : String) : List RTok := s.toList.map RTok.lit

/-! ### company-normalizer.js -/

/-- The ordered alternatives of the business-suffix pattern of
normalizeCompanyName in company-normalizer.js. -/
def suffixAlts : List (List RTok) :=
  [lits ("bv"),
   [RTok.lit 'b', RTok.optDot, RTok.lit 'v', RTok.optDot],
   lits ("ltd"), lits ("limited"), lits ("inc"), lits ("corp"),
   lits ("corporation"), lits ("llc"),
   [RTok.lit 'l', RTok.optDot, RTok.lit 'l', RTok.optDot, RTok.lit 'c', RTok.optDot],
   lits ("gmbh"), lits ("sa"), lits ("nv"),
   [RTok.lit 'n', RTok.optDot, RTok.lit 'v', RTok.optDot],
   lits ("plc"), lits ("pty"), lits ("co"), lits ("company"), lits ("group"),
   lits ("holding"), lits ("international"), lits ("intl")]

/-- Replace every character outside backslash-w and backslash-s by
nothing (the replace of the punctuation-stripping regex). -/
def removeNonWordSpace (s : JStr) : JStr :=
  s.filter (fun c => isWordChar c || isJsSpace c)

/-- Delete all whitespace (global replacement of whitespace runs by the
empty string). -/
def removeAllWs (s : JStr) : JStr :=
  s.filter (fun c => !isJsSpace c)

/-- normalizeCompanyName of company-normalizer.js: lower-case, trim,
strip the business-suffix words (word-boundary matched, optional trailing
dot), strip punctuation, delete whitespace, trim. -/
def normalizeCompanyName (name : JStr) : JStr :=
  if name = [] then []
  else jsTrim (removeAllWs (removeNonWordSpace
    (regexRemove suffixAlts true (jsTrim (lowerStr name)))))

/-- One pass of the whitespace splitter: the flag records whether the
scan stands inside a whitespace run, the accumulator holds the current
segment reversed. -/
def splitWsCore : Bool → List Char → List Char → List JStr
  | _, acc, [] => [acc.reverse]
  | inWs, acc, c :: rest =>
    if isJsSpace c then
      if inWs then splitWsCore true acc rest
      else acc.reverse :: splitWsCore true [] rest
    else splitWsCore false (c :: acc) rest

/-- JavaScript split on the regex of one-or-more whitespace: the segments
between maximal whitespace runs, keeping the empty segments that arise at
a leading or trailing run. -/
def splitWsRuns (s : List Char) : List JStr := splitWsCore false [] s

/-- JavaScript split on a single-character separator (or a one-character
class): the segments between separator occurrences, empties kept. -/
def splitOnPred (p : Char → Bool) : List Char → List JStr
  | [] => [[]]
  | c :: rest =>
    if p c then [] :: splitOnPred p rest
    else
      match splitOnPred p rest with
      | [] => [[c]]
      | seg :: segs => (c :: seg) :: segs

/-- Split on one literal separator character. -/
def splitOnChar (sep : Char) (s : List Char) : List JStr :=
  splitOnPred (fun c => decide (c = sep)) s

/-- The exact-word suffix set of the token-cleaning regex in
tokenizeCompanyName of company-normalizer.js. -/
def tokenSuffixStrings : List JStr :=
  [("bv").toList, ("ltd").toList, ("inc").toList, ("corp").toList,
   ("llc").toList, ("gmbh").toList, ("sa").toList, ("nv").toList,
   ("plc").toList, ("co").toList]

/-- tokenizeCompanyName of company-normalizer.js: lower-case words with
punctuation turned into spaces, keep words of length above one, the dead
suffix-cleaning branch, prefix substrings of length 3..6 for words of six
or more characters, the concatenation of two-or-three-word names, final
length filter.  The Set is modelled by insertion-ordered addition. -/
def tokenizeCompanyName (name : JStr) : List JStr :=
  if name = [] then []
  else
    let words := (splitWsRuns ((lowerStr name).map
      (fun c => if isWordChar c || isJsSpace c then c else ' '))).filter
        (fun w => w.length > 1)
    let base := words.foldl (fun acc w =>
      let acc1 := setAdd acc w
      let cleaned := if w ∈ tokenSuffixStrings then [] else w
      if cleaned ≠ [] ∧ cleaned ≠ w ∧ cleaned.length > 1 then setAdd acc1 cleaned
      else acc1) []
    let withPre := words.foldl (fun acc w =>
      if w.length ≥ 6 then
        (List.range' 3 (min (w.length - 1) 6 - 3 + 1)).foldl
          (fun a i => setAdd a (w.take i)) acc
      else acc) base
    let withJoin :=
      if 2 ≤ words.length ∧ words.length ≤ 3 then setAdd withPre words.flatten
      else withPre
    withJoin.filter (fun t => t.length ≥ 2)

/-- Strip every non-word character from a word (the replace of the
first-word extraction). -/
def stripNonWord (w : JStr) : JStr := w.filter isWordChar

/-- extractFirstWords of company-normalizer.js: the first word of the
whole lower-cased name, plus the first word of every segment obtained by
splitting on each of the separators comma, dash, bar, slash, backslash,
opening parenthesis and opening bracket. -/
def extractFirstWords (name : JStr) : List JStr :=
  if name = [] then []
  else
    let allWords := (splitWsRuns (lowerStr name)).filter (fun w => w.length > 0)
    let base :=
      match allWords with
      | [] => []
      | w :: _ =>
        let fw := stripNonWord w
        if fw.length > 0 then setAdd [] fw else []
    let seps : List Char := [',', '-', '|', '/', Char.ofNat 92, '(', '[']
    seps.foldl (fun acc sep =>
      (splitOnChar sep name).foldl (fun acc2 part =>
        let tp := jsTrim part
        if tp.length > 0 then
          match splitWsRuns (lowerStr tp) with
          | [] => acc2
          | pw :: _ =>
            let fpw := stripNonWord pw
            if fpw.length > 1 then setAdd acc2 fpw else acc2
        else acc2) acc) base

/-! ### Levenshtein distance

Model of the fast-levenshtein dependency used by sponsor-matcher.js:
the standard edit distance (insertions, deletions, substitutions of one
character, unit cost), computed row by row. -/

/-- One dynamic-programming row step: walk the remaining target
characters with the value to the left, the diagonal value and the rest of
the previous row. -/
def levRow (ca : Char) : List Char → Nat → Nat → List Nat → List Nat
  | [], _, _, _ => []
  | cb :: bs, left, diag, up =>
    let upHead := up.headD 0
    let cur := min (min (upHead + 1) (left + 1)) (diag + (if ca = cb then 0 else 1))
    cur :: levRow ca bs cur upHead up.tail

/-- Levenshtein edit distance between two strings. -/
def lev (a b : List Char) : Nat :=
  (a.foldl (fun prev ca =>
      let h := prev.headD 0
      (h + 1) :: levRow ca b (h + 1) h prev.tail)
    (List.range (b.length + 1))).getLastD 0

/-! ### sponsor-matcher.js -/

/-- A sponsor record as the matcher sees it.  Absent or empty JavaScript
string fields behave identically in every use below (both are falsy or
compare unequal to a non-empty query), so absence is modelled by the
empty string; absent array fields behave like empty arrays in every use
and are modelled by the empty list. -/
structure SponsorRec where
  primaryName : JStr := []
  normalizedName : JStr := []
  aliases : List JStr := []
  variations : List JStr := []
  searchTokens : List JStr := []
  firstWords : List JStr := []
  domain : JStr := []
deriving DecidableEq

/-- The four search indexes of the matcher. -/
structure Indexes where
  byFirstWord : List (JStr × List JStr) := []
  byNormalizedName : List (JStr × JStr) := []
  bySearchToken : List (JStr × List JStr) := []
  byDomain : List (JStr × JStr) := []
deriving DecidableEq

/-- The runtime state of a SponsorMatcher.  The per-query cache is not
part of the model: it only memoizes the pure result computed below under
the lower-cased trimmed input and is cleared on every load, so it never
changes an answer. -/
structure Matcher where
  sponsors : List (JStr × SponsorRec) := []
  indexes : Indexes := {}
  loaded : Bool := false
deriving DecidableEq

/-- The prebuilt index object of a sponsors.json artifact. -/
structure PrebuiltIndexes where
  byFirstWord : List (JStr × List JStr) := []
  byNormalizedName : List (JStr × JStr) := []
  bySearchToken : List (JStr × List JStr) := []
  byDomain : List (JStr × JStr) := []
deriving DecidableEq

/-- A sponsor data object handed to loadSponsorData: the sponsors map
(present by type, as required by the load-time validity check) and an
optional prebuilt index. -/
structure SponsorData where
  sponsors : List (JStr × SponsorRec)
  index : Option PrebuiltIndexes := none
deriving DecidableEq

/-- loadPrebuiltIndexes: every index entry is copied with its key
lower-cased. -/
def loadPrebuiltIndexes (d : PrebuiltIndexes) : Indexes :=
  { byFirstWord := d.byFirstWord.foldl (fun m p => jsSet m (lowerStr p.1) p.2) []
    byNormalizedName := d.byNormalizedName.foldl (fun m p => jsSet m (lowerStr p.1) p.2) []
    bySearchToken := d.bySearchToken.foldl (fun m p => jsSet m (lowerStr p.1) p.2) []
    byDomain := d.byDomain.foldl (fun m p => jsSet m (lowerStr p.1) p.2) [] }

/-- buildIndexes of sponsor-matcher.js: one pass over the records;
first words and search tokens push the record id under the lower-cased
token, the normalized name and the domain overwrite the entry under the
lower-cased key. -/
def buildIndexes (sponsors : List (JStr × SponsorRec)) : Indexes :=
  sponsors.foldl (fun idx p =>
    let idx := { idx with
      byFirstWord := p.2.firstWords.foldl (fun m w => jsPush m (lowerStr w) p.1)
        idx.byFirstWord }
    let idx := { idx with
      byNormalizedName :=
        if p.2.normalizedName ≠ [] then
          jsSet idx.byNormalizedName (lowerStr p.2.normalizedName) p.1
        else idx.byNormalizedName }
    let idx := { idx with
      bySearchToken := p.2.searchTokens.foldl (fun m t => jsPush m (lowerStr t) p.1)
        idx.bySearchToken }
    { idx with
      byDomain :=
        if p.2.domain ≠ [] then jsSet idx.byDomain (lowerStr p.2.domain) p.1
        else idx.byDomain }) {}

/-- loadSponsorData: store the sponsors, build or load the indexes, mark
the matcher loaded.  The data object is well-formed by type, so the model
never takes the throwing branch. -/
def loadSponsorData (d : SponsorData) : Matcher :=
  { sponsors := d.sponsors
    indexes :=
      match d.index with
      | some idx => loadPrebuiltIndexes idx
      | none => buildIndexes d.sponsors
    loaded := true }

/-- checkExactMatch: case-insensitive equality of the query against any
primary name, alias or legacy variation. -/
def checkExactMatch (m : Matcher) (companyName : JStr) : Bool :=
  let lowerName := lowerStr companyName
  m.sponsors.any (fun p =>
    (decide (p.2.primaryName ≠ []) && decide (lowerStr p.2.primaryName = lowerName))
    || p.2.aliases.any (fun a => decide (lowerStr a = lowerName))
    || p.2.variations.any (fun v => decide (lowerStr v = lowerName)))

/-- checkNormalizedMatch: probe the normalized-name index, then fall back
to a scan of the records. -/
def checkNormalizedMatch (m : Matcher) (companyName : JStr) : Bool :=
  let normalized := normalizeCompanyName companyName
  if normalized = [] ∨ normalized.length < 2 then false
  else
    (assocGet m.indexes.byNormalizedName normalized).isSome
    || m.sponsors.any (fun p =>
        decide (p.2.normalizedName ≠ []) && decide (lowerStr p.2.normalizedName = normalized))

/-- The sponsor-side token set of the overlap test: search tokens, first
words and the tokenization of the primary name, lower-cased, as a Set. -/
def sponsorTokenSet (record : SponsorRec) : List JStr :=
  ((record.searchTokens ++ record.firstWords
    ++ tokenizeCompanyName record.primaryName).map lowerStr).foldl setAdd []

/-- tokenOverlapMatch of sponsor-matcher.js, with the floating-point
ratio comparison carried out exactly over the rationals. -/
def tokenOverlapMatch (queryTokens : List JStr) (record : SponsorRec) : Bool :=
  let sponsorTokens := sponsorTokenSet record
  if sponsorTokens.length = 0 then false
  else
    let overlap := queryTokens.countP (fun t => decide (lowerStr t ∈ sponsorTokens))
    let minTokens := min queryTokens.length sponsorTokens.length
    let overlapRatio : ℚ := (overlap : ℚ) / (minTokens : ℚ)
    let threshold : ℚ := if minTokens ≥ 3 then 6 / 10 else 8 / 10
    decide (overlapRatio ≥ threshold)

/-- Division-free executable form of tokenOverlapMatch; proved equal to
it below. -/
def tokenOverlapMatchExec (queryTokens : List JStr) (record : SponsorRec) : Bool :=
  let sponsorTokens := sponsorTokenSet record
  if sponsorTokens.length = 0 then false
  else
    let overlap := queryTokens.countP (fun t => decide (lowerStr t ∈ sponsorTokens))
    let minTokens := min queryTokens.length sponsorTokens.length
    if minTokens = 0 then false
    else
      let thr := if minTokens ≥ 3 then 6 else 8
      decide (10 * overlap ≥ thr * minTokens)

/-- checkTokenMatch: candidates are gathered as the union of the
first-word and search-token index hits (a Set in insertion order) and
each candidate record is tested for token overlap. -/
def checkTokenMatch (m : Matcher) (companyName : JStr) : Bool :=
  let tokens := tokenizeCompanyName companyName
  if tokens = [] then false
  else
    let firstWords := extractFirstWords companyName
    let fromFirst := firstWords.foldl
      (fun acc w => acc ++ ((assocGet m.indexes.byFirstWord (lowerStr w)).getD [])) []
    let fromTokens := tokens.foldl
      (fun acc t => acc ++ ((assocGet m.indexes.bySearchToken (lowerStr t)).getD [])) []
    let candidateIds := (fromFirst ++ fromTokens).foldl setAdd []
    candidateIds.any (fun sid =>
      match assocGet m.sponsors sid with
      | some record => tokenOverlapMatch tokens record
      | none => false)

/-- Executable twin of checkTokenMatch. -/
def checkTokenMatchExec (m : Matcher) (companyName : JStr) : Bool :=
  let tokens := tokenizeCompanyName companyName
  if tokens = [] then false
  else
    let firstWords := extractFirstWords companyName
    let fromFirst := firstWords.foldl
      (fun acc w => acc ++ ((assocGet m.indexes.byFirstWord (lowerStr w)).getD [])) []
    let fromTokens := tokens.foldl
      (fun acc t => acc ++ ((assocGet m.indexes.bySearchToken (lowerStr t)).getD [])) []
    let candidateIds := (fromFirst ++ fromTokens).foldl setAdd []
    candidateIds.any (fun sid =>
      match assocGet m.sponsors sid with
      | some record => tokenOverlapMatchExec tokens record
      | none => false)

/-- checkFuzzyMatch of sponsor-matcher.js: bounded Levenshtein distance
against the primary name, the normalized name (with its own bound from
the normalized query length) and the first three aliases.  The
floating-point bound floor((1 - threshold) times length) is carried out
exactly over the rationals. -/
def checkFuzzyMatch (m : Matcher) (companyName : JStr) (threshold : ℚ) : Bool :=
  let lowerName := lowerStr companyName
  let maxDistance : ℤ := ⌊(1 - threshold) * (lowerName.length : ℚ)⌋
  if lowerName.length < 3 ∨ maxDistance < 1 then false
  else
    m.sponsors.any (fun p =>
      (decide (p.2.primaryName ≠ [])
        && decide ((lev lowerName (lowerStr p.2.primaryName) : ℤ) ≤ maxDistance))
      || (decide (p.2.normalizedName ≠ [])
        && (let normalizedQuery := normalizeCompanyName companyName
            decide ((lev normalizedQuery p.2.normalizedName : ℤ)
              ≤ ⌊(1 - threshold) * (normalizedQuery.length : ℚ)⌋)))
      || (decide (p.2.aliases.length > 0)
        && (p.2.aliases.take 3).any (fun a =>
            decide ((lev lowerName (lowerStr a) : ℤ) ≤ maxDistance))))

/-- Executable twin of checkFuzzyMatch at the threshold 85/100 used by
the matcher, with the bound computed by natural division; proved equal to
checkFuzzyMatch at that threshold below. -/
def checkFuzzyMatchExec85 (m : Matcher) (companyName : JStr) : Bool :=
  let lowerName := lowerStr companyName
  let maxDistance := 15 * lowerName.length / 100
  if lowerName.length < 3 ∨ maxDistance < 1 then false
  else
    m.sponsors.any (fun p =>
      (decide (p.2.primaryName ≠ [])
        && decide (lev lowerName (lowerStr p.2.primaryName) ≤ maxDistance))
      || (decide (p.2.normalizedName ≠ [])
        && (let normalizedQuery := normalizeCompanyName companyName
            decide (lev normalizedQuery p.2.normalizedName
              ≤ 15 * normalizedQuery.length / 100)))
      || (decide (p.2.aliases.length > 0)
        && (p.2.aliases.take 3).any (fun a =>
            decide (lev lowerName (lowerStr a) ≤ maxDistance))))

/-- checkDomainMatch: guess domains from the normalized name and probe
the domain index. -/
def checkDomainMatch (m : Matcher) (companyName : JStr) : Bool :=
  let normalized := normalizeCompanyName companyName
  let words := (splitWsRuns normalized).filter (fun w => w.length > 2)
  match words with
  | [] => false
  | w0 :: restWords =>
    let potentialDomains :=
      [w0 ++ (".com").toList, w0 ++ (".nl").toList]
      ++ (match restWords with
          | w1 :: _ => [w0 ++ w1 ++ (".com").toList, w0 ++ w1 ++ (".nl").toList]
          | [] => [])
    potentialDomains.any (fun dom => (assocGet m.indexes.byDomain (lowerStr dom)).isSome)

/-- A JavaScript value handed to isRecognizedSponsor: a string, null,
undefined, or any non-string value. -/
inductive JsValue where
  | str : JStr → JsValue
  | null : JsValue
  | undefined : JsValue
  | other : JsValue
deriving DecidableEq

/-- isRecognizedSponsor: false for an unloaded matcher, a falsy or
non-string input or a whitespace-only input; otherwise the staged
strategies on the trimmed name, in order.  Total by construction: no
input can make it throw. -/
def isRecognizedSponsor (m : Matcher) (v : JsValue) : Bool :=
  match v with
  | JsValue.str s =>
    if m.loaded = false ∨ s = [] then false
    else
      let trimmedName := jsTrim s
      if trimmedName.length = 0 then false
      else
        checkExactMatch m trimmedName
        || checkNormalizedMatch m trimmedName
        || checkTokenMatch m trimmedName
        || checkFuzzyMatch m trimmedName (85 / 100)
  | _ => false

/-- Executable twin of isRecognizedSponsor. -/
def isRecognizedSponsorExec (m : Matcher) (v : JsValue) : Bool :=
  match v with
  | JsValue.str s =>
    if m.loaded = false ∨ s = [] then false
    else
      let trimmedName := jsTrim s
      if trimmedName.length = 0 then false
      else
        checkExactMatch m trimmedName
        || checkNormalizedMatch m trimmedName
        || checkTokenMatchExec m trimmedName
        || checkFuzzyMatchExec85 m trimmedName
  | _ => false

/-- The result of getMatchDetails (the diagnostic fields that echo the
input are omitted; the claims concern matched and matchedTypes). -/
structure MatchDetails where
  matched : Bool
  matchedTypes : List JStr
deriving DecidableEq

/-- getMatchDetails of sponsor-matcher.js: runs all five checks,
including the domain check, and reports whether any succeeded. -/
def getMatchDetails (m : Matcher) (companyName : JStr) : MatchDetails :=
  if m.loaded = false ∨ companyName = [] then { matched := false, matchedTypes := [] }
  else
    let trimmedName := jsTrim companyName
    let exact := checkExactMatch m trimmedName
    let normalized := checkNormalizedMatch m trimmedName
    let token := checkTokenMatch m trimmedName
    let fuzzy := checkFuzzyMatch m trimmedName (85 / 100)
    let domain := checkDomainMatch m trimmedName
    { matched := exact || normalized || token || fuzzy || domain
      matchedTypes :=
        (if exact then [("exact").toList] else [])
        ++ (if normalized then [("normalized").toList] else [])
        ++ (if token then [("token").toList] else [])
        ++ (if fuzzy then [("fuzzy").toList] else [])
        ++ (if domain then [("domain").toList] else []) }

/-! ### process-sponsors.js

The offline pipeline has its own local copies of the normalizer
functions; they differ from company-normalizer.js (different suffix
vocabulary, different regex order) and are embedded separately. -/

namespace ProcessSponsors

/-- The ordered alternatives of the suffix pattern of the script-local
normalizeCompanyName.  The dots here are literal. -/
def suffixAlts : List (List RTok) :=
  [lits ("bv"), lits ("b.v."), lits ("ltd"), lits ("limited"), lits ("inc"),
   lits ("corp"), lits ("corporation"), lits ("llc"), lits ("gmbh"),
   lits ("sa"), lits ("nv"), lits ("n.v.")]

/-- Script-local normalizeCompanyName: lower-case, strip punctuation,
strip the suffix words (word-boundary matched, no trailing dot), delete
whitespace, trim. -/
def normalizeCompanyName (name : JStr) : JStr :=
  if name = [] then []
  else jsTrim (removeAllWs (regexRemove suffixAlts false
    (removeNonWordSpace (lowerStr name))))

/-- The end-anchored suffix alternatives of the script-local
generateAliases, matched case-insensitively. -/
def endSuffixStrings : List JStr :=
  [("BV").toList, ("B.V.").toList, ("Ltd").toList, ("Limited").toList,
   ("Inc").toList, ("Corp").toList, ("Corporation").toList, ("LLC").toList,
   ("GmbH").toList, ("SA").toList, ("NV").toList, ("N.V.").toList]

/-- Find the leftmost match of whitespace-run-then-suffix-then-end in the
name and return the name cut before it; none when there is no match.
Every alternative starts with a letter, so the whitespace run of a match
is always maximal and the suffix is compared against the whole remainder
of the string. -/
def stripEndSuffixAux : List Char → List Char → Option (List Char)
  | _, [] => none
  | pre, c :: rest =>
    if isJsSpace c then
      let tail := (c :: rest).dropWhile isJsSpace
      if tail ≠ [] ∧ endSuffixStrings.any (fun suf => decide (lowerStr tail = lowerStr suf)) then
        some pre.reverse
      else stripEndSuffixAux (c :: pre) rest
    else stripEndSuffixAux (c :: pre) rest

/-- One pass of whitespace collapsing, with a flag recording whether the
scan stands inside a whitespace run. -/
def collapseWsCore : Bool → List Char → List Char
  | _, [] => []
  | inWs, c :: rest =>
    if isJsSpace c then
      if inWs then collapseWsCore true rest
      else ' ' :: collapseWsCore true rest
    else c :: collapseWsCore false rest

/-- Collapse every whitespace run to a single space (global replacement
of one-or-more whitespace by one space). -/
def collapseWs (s : List Char) : List Char := collapseWsCore false s

/-- Script-local generateAliases: the original name, the name without its
trailing business suffix, the suffix-free base recombined with four
canonical suffixes, and a punctuation-relaxed variant; empty strings
filtered out. -/
def generateAliases (primaryName : JStr) : List JStr :=
  let aliases := setAdd [] primaryName
  let withoutSuffix := (stripEndSuffixAux [] primaryName).getD primaryName
  let aliases :=
    if withoutSuffix ≠ primaryName then setAdd aliases withoutSuffix else aliases
  let baseName := withoutSuffix
  let aliases := [("BV").toList, ("B.V.").toList, ("Ltd").toList,
      ("Limited").toList].foldl
    (fun acc suf => setAdd acc (baseName ++ [' '] ++ suf)) aliases
  let aliases := setAdd aliases (jsTrim (collapseWs (primaryName.map
    (fun c => if isWordChar c || isJsSpace c then c else ' '))))
  aliases.filter (fun a => a ≠ [])

/-- Script-local extractFirstWords: the first word of the lower-cased
name (added unconditionally), plus the first word of every part obtained
by splitting on comma, dash or bar when it is longer than one character;
empty strings filtered at the end. -/
def extractFirstWords (name : JStr) : List JStr :=
  if name = [] then []
  else
    let words := (splitWsRuns (lowerStr name)).filter (fun w => w.length > 0)
    let base :=
      match words with
      | [] => []
      | w :: _ => setAdd [] (stripNonWord w)
    let parts := splitOnPred (fun c => decide (c = ',') || decide (c = '-')
      || decide (c = '|')) name
    (parts.foldl (fun acc part =>
      match splitWsRuns (lowerStr (jsTrim part)) with
      | [] => acc
      | pw :: _ => if pw.length > 1 then setAdd acc (stripNonWord pw) else acc) base).filter
      (fun w => w.length > 0)

/-- The exact-word suffix set of the script-local token-cleaning regex. -/
def tokenSuffixStrings : List JStr :=
  [("bv").toList, ("ltd").toList, ("inc").toList, ("corp").toList,
   ("llc").toList, ("gmbh").toList, ("sa").toList, ("nv").toList]

/-- Script-local tokenizeCompanyName: lower-cased words of length above
one, with a dead suffix-cleaning branch (the cleaned word is always
empty when it differs from the word). -/
def tokenizeCompanyName (name : JStr) : List JStr :=
  if name = [] then []
  else
    let words := (splitWsRuns ((lowerStr name).map
      (fun c => if isWordChar c || isJsSpace c then c else ' '))).filter
        (fun w => w.length > 1)
    words.foldl (fun acc w =>
      let acc1 := setAdd acc w
      let cleaned := if w ∈ tokenSuffixStrings then [] else w
      if cleaned ≠ [] ∧ cleaned ≠ w then setAdd acc1 cleaned else acc1) []

/-- generateSponsorRecord of process-sponsors.js. -/
def generateSponsorRecord (companyName : JStr) : SponsorRec :=
  { primaryName := companyName
    aliases := generateAliases companyName
    normalizedName := normalizeCompanyName companyName
    firstWords := extractFirstWords companyName
    searchTokens := tokenizeCompanyName companyName
    variations := (companyName :: generateAliases companyName).foldl setAdd [] }

/-- processCompanyData of process-sponsors.js over the name column of the
raw rows.  The MD5-based generateUniqueId is external library code and is
modelled by the abstract id function uid applied to the lower-cased name;
the theorems below assume uid injective, the collision-avoidance
assumption the specification itself makes for the hash.  A row whose
trimmed name is empty, or whose lower-cased name was already processed,
is skipped; otherwise the record is stored under its id. -/
def processCompanyData (uid : JStr → JStr) (rawData : List JStr) :
    List (JStr × SponsorRec) :=
  (rawData.foldl (fun st row =>
      let companyName := jsTrim row
      if companyName = [] ∨ lowerStr companyName ∈ st.1 then st
      else (st.1 ++ [lowerStr companyName],
            jsSet st.2 (uid (lowerStr companyName)) (generateSponsorRecord companyName)))
    (([] : List JStr), ([] : List (JStr × SponsorRec)))).2

/-- The three indexes built by the pipeline. -/
structure PIndexes where
  byFirstWord : List (JStr × List JStr) := []
  byNormalizedName : List (JStr × JStr) := []
  bySearchToken : List (JStr × List JStr) := []
deriving DecidableEq

/-- The loop body of buildSearchIndexes of process-sponsors.js, for one
sponsor entry: every first word and search token pushes the sponsor id
onto its list, the normalized name overwrites the entry under its key. -/
def buildStep (idx : PIndexes) (p : JStr × SponsorRec) : PIndexes :=
  let idx1 := { idx with
    byFirstWord := p.2.firstWords.foldl (fun m w => jsPush m w p.1) idx.byFirstWord }
  let idx2 := { idx1 with
    byNormalizedName :=
      if p.2.normalizedName ≠ [] then jsSet idx1.byNormalizedName p.2.normalizedName p.1
      else idx1.byNormalizedName }
  { idx2 with
    bySearchToken := p.2.searchTokens.foldl (fun m t => jsPush m t p.1)
      idx2.bySearchToken }

/-- buildSearchIndexes of process-sponsors.js: one linear pass over the
sponsor entries. -/
def buildSearchIndexes (sponsors : List (JStr × SponsorRec)) : PIndexes :=
  sponsors.foldl buildStep {}

end ProcessSponsors

/-! ### compare-data.js -/

namespace CompareData

/-- One parsed CSV row: organisation name and its kvk number. -/
structure CsvRecord where
  organisation : JStr
  kvk : JStr
deriving DecidableEq

/-- One entry of the modified list. -/
structure ModEntry where
  organisation : JStr
  oldKvk : JStr
  newKvk : JStr
deriving DecidableEq

/-- The summary produced by compareData. -/
structure ChangeSummary where
  totalOld : Nat
  totalNew : Nat
  added : List CsvRecord
  removed : List CsvRecord
  modified : List ModEntry
  hasChanges : Bool
deriving DecidableEq

/-- Parse the fields of one CSV line: simple quoted-field parsing with
doubled quotes as escapes; every field is trimmed.  The accumulated
current field is kept reversed. -/
def parseFields : List Char → Bool → List Char → List JStr
  | [], _, current => [jsTrim current.reverse]
  | c :: rest, inQuotes, current =>
    if c = Char.ofNat 34 then
      if inQuotes then
        match rest with
        | c2 :: rest2 =>
          if c2 = Char.ofNat 34 then parseFields rest2 true (Char.ofNat 34 :: current)
          else parseFields (c2 :: rest2) false current
        | [] => parseFields [] false current
      else parseFields rest true current
    else if c = ',' ∧ inQuotes = false then
      jsTrim current.reverse :: parseFields rest inQuotes []
    else parseFields rest inQuotes (c :: current)
termination_by structural l => l

/-- parseCSV of compare-data.js: split on line feeds, keep the lines
whose trim is non-empty, skip the header line, parse each remaining line
and keep it when it has at least two fields. -/
def parseCSV (csvContent : JStr) : List CsvRecord :=
  let lines := (splitOnChar (Char.ofNat 10) csvContent).filter (fun l => jsTrim l ≠ [])
  (lines.drop 1).filterMap (fun rawLine =>
    let line := jsTrim rawLine
    if line = [] then none
    else
      let fields := parseFields line false []
      match fields with
      | f0 :: f1 :: _ => some { organisation := f0, kvk := f1 }
      | _ => none)

/-- The Map keyed by lower-cased organisation name built by compareData. -/
def recordMap (rs : List CsvRecord) : List (JStr × CsvRecord) :=
  rs.foldl (fun m r => jsSet m (lowerStr r.organisation) r) []

/-- compareData of compare-data.js: additions and modifications found by
walking the new records against the old map, removals by walking the old
records against the new map. -/
def compareData (oldRecords newRecords : List CsvRecord) : ChangeSummary :=
  let oldMap := recordMap oldRecords
  let newMap := recordMap newRecords
  let added := newRecords.filter
    (fun r => (assocGet oldMap (lowerStr r.organisation)).isNone)
  let modified := newRecords.filterMap (fun r =>
    match assocGet oldMap (lowerStr r.organisation) with
    | some o =>
      if o.kvk ≠ r.kvk then
        some { organisation := r.organisation, oldKvk := o.kvk, newKvk := r.kvk }
      else none
    | none => none)
  let removed := oldRecords.filter
    (fun r => !(assocGet newMap (lowerStr r.organisation)).isSome)
  { totalOld := oldRecords.length
    totalNew := newRecords.length
    added := added
    removed := removed
    modified := modified
    hasChanges := added.length > 0 || removed.length > 0 || modified.length > 0 }

/-- The result of checkForChanges. -/
structure ChangeCheckResult where
  hasChanges : Bool
  changeSummary : Option ChangeSummary
  newHash : JStr
deriving DecidableEq

/-- checkForChanges of compare-data.js.  The SHA-256 of the crypto
library and the filesystem reads are external to the comparison logic and
enter as parameters: the hash function, the stored hash of the last run
and the content of the latest stored CSV file.  When the stored hash
equals the hash of the new content the function returns immediately,
without parsing and with no summary; otherwise both sides are parsed and
compared, and hasChanges reports whether the diff is non-empty. -/
def checkForChanges (hash : JStr → JStr) (lastHash : Option JStr)
    (previousCSV : Option JStr) (newCSVContent : JStr) : ChangeCheckResult :=
  let newHash := hash newCSVContent
  if lastHash = some newHash then
    { hasChanges := false, changeSummary := none, newHash := newHash }
  else
    let newRecords := parseCSV newCSVContent
    let oldRecords :=
      match previousCSV with
      | some content => parseCSV content
      | none => []
    let changeSummary := compareData oldRecords newRecords
    if changeSummary.hasChanges = false then
      { hasChanges := false, changeSummary := some changeSummary, newHash := newHash }
    else
      { hasChanges := true, changeSummary := some changeSummary, newHash := newHash }

end CompareData

/-! ### The dataset splitter (split script and CSV pipeline writer)

Both copies sort the sponsor entries by lower-cased primary name with
localeCompare and cut the sorted list into three slices.  localeCompare
is a host builtin; it is modelled as lexicographic comparison of the
lower-cased names, and the JavaScript comparator sort as a stable
comparison sort. -/

namespace SplitSponsors

/-- Boolean lexicographic order on strings. -/
def lexLe : List Char → List Char → Bool
  | [], _ => true
  | _ :: _, [] => false
  | a :: as, b :: bs => if a = b then lexLe as bs else decide (a < b)

/-- The sort relation of the splitter: lower-cased primary names in
lexicographic order. -/
def nameLe (a b : JStr × SponsorRec) : Prop :=
  lexLe (lowerStr a.2.primaryName) (lowerStr b.2.primaryName) = true

instance : DecidableRel nameLe := fun a b =>
  inferInstanceAs (Decidable
    (lexLe (lowerStr a.2.primaryName) (lowerStr b.2.primaryName) = true))

/-- The sorted entry list (Array.prototype.sort with the localeCompare
comparator, modelled as a stable insertion sort). -/
def sortSponsors (entries : List (JStr × SponsorRec)) : List (JStr × SponsorRec) :=
  List.insertionSort nameLe entries

/-- Math.ceil of a third of the entry count. -/
def splitSize (n : Nat) : Nat := (n + 2) / 3

/-- The three contiguous groups cut from the sorted list. -/
def splitGroups (entries : List (JStr × SponsorRec)) : List (List (JStr × SponsorRec)) :=
  let sorted := sortSponsors entries
  let s := splitSize sorted.length
  [sorted.take s, (sorted.drop s).take s, sorted.drop (2 * s)]

/-- The upper-cased first letter of a record's primary name; none when
the primary name is empty (where the script would throw). -/
def firstLetterUpper (r : SponsorRec) : Option Char :=
  match r.primaryName with
  | [] => none
  | c :: _ => some (asciiUpper c)

/-- The declared alphabetic range of one group: the upper-cased first
letters of the first and last member's primary names; none when the group
is empty or a name is empty (where the script would throw on the
undefined member). -/
def groupBoundary (g : List (JStr × SponsorRec)) : Option (Char × Char) :=
  match g.head?, g.getLast? with
  | some f, some l =>
    match firstLetterUpper f.2, firstLetterUpper l.2 with
    | some a, some b => some (a, b)
    | _, _ => none
  | _, _ => none

end SplitSponsors

/-! ### Character and string lemmas -/

theorem char_toNat_ofNat_small : ∀ n, n < 256 → (Char.ofNat n).toNat = n := by decide

theorem asciiLower_asciiUpper (c : Char) : asciiLower (asciiUpper c) = asciiLower c := by
  unfold asciiLower asciiUpper
  by_cases h : 97 ≤ c.toNat ∧ c.toNat ≤ 122
  · have h1 : (Char.ofNat (c.toNat - 32)).toNat = c.toNat - 32 :=
      char_toNat_ofNat_small _ (by omega)
    have h2 : c.toNat - 32 + 32 = c.toNat := by omega
    rw [if_pos h, h1, if_pos (by omega), h2, Char.ofNat_toNat, if_neg (by omega)]
  · rw [if_neg h]

theorem isJsSpace_asciiUpper (c : Char) : isJsSpace (asciiUpper c) = isJsSpace c := by
  unfold asciiUpper isJsSpace
  by_cases h : 97 ≤ c.toNat ∧ c.toNat ≤ 122
  · have h1 : (Char.ofNat (c.toNat - 32)).toNat = c.toNat - 32 :=
      char_toNat_ofNat_small _ (by omega)
    rw [if_pos h, h1, Bool.eq_iff_iff]
    simp only [Bool.or_eq_true, decide_eq_true_eq]
    omega
  · rw [if_neg h]

theorem lowerStr_upperStr (s : JStr) : lowerStr (upperStr s) = lowerStr s := by
  unfold lowerStr upperStr
  rw [List.map_map]
  exact List.map_congr_left (fun a _ => asciiLower_asciiUpper a)

theorem upperStr_eq_nil_iff (s : JStr) : upperStr s = [] ↔ s = [] := by
  unfold upperStr
  exact List.map_eq_nil_iff

theorem dropWhile_isJsSpace_upperStr (s : JStr) :
    (upperStr s).dropWhile isJsSpace = upperStr (s.dropWhile isJsSpace) := by
  induction s with
  | nil => rfl
  | cons c cs ih =>
    simp only [upperStr, List.map_cons, List.dropWhile_cons, isJsSpace_asciiUpper]
    by_cases h : isJsSpace c = true
    · simpa [h] using ih
    · simp [h, upperStr]

theorem reverse_upperStr (s : JStr) : (upperStr s).reverse = upperStr s.reverse := by
  unfold upperStr
  exact (List.map_reverse _ _).symm

theorem jsTrim_upperStr (s : JStr) : jsTrim (upperStr s) = upperStr (jsTrim s) := by
  unfold jsTrim
  rw [dropWhile_isJsSpace_upperStr, reverse_upperStr, dropWhile_isJsSpace_upperStr,
    reverse_upperStr]

/-! ### Association-list lemmas -/

theorem assocGet_append {α : Type} (m1 m2 : List (JStr × α)) (k : JStr) :
    assocGet (m1 ++ m2) k = (assocGet m1 k).orElse (fun _ => assocGet m2 k) := by
  induction m1 with
  | nil => simp [assocGet, Option.orElse]
  | cons p ps ih =>
    by_cases h : p.1 = k <;> simp [assocGet, h, ih, Option.orElse]

theorem assocGet_isSome_iff {α : Type} (m : List (JStr × α)) (k : JStr) :
    (assocGet m k).isSome = true ↔ k ∈ m.map Prod.fst := by
  induction m with
  | nil => simp [assocGet]
  | cons p ps ih =>
    simp only [List.map_cons, List.mem_cons]
    show (if p.1 = k then some p.2 else assocGet ps k).isSome = true ↔ _
    by_cases h : p.1 = k
    · rw [if_pos h]
      exact ⟨fun _ => Or.inl h.symm, fun _ => rfl⟩
    · rw [if_neg h, ih]
      constructor
      · exact fun hm => Or.inr hm
      · rintro (hh | hm)
        · exact absurd hh.symm h
        · exact hm

theorem assocGet_map_replace_self {α : Type} (m : List (JStr × α)) (k : JStr) (v : α) :
    assocGet (m.map (fun p => if p.1 = k then (k, v) else p)) k
      = if (assocGet m k).isSome then some v else none := by
  induction m with
  | nil => simp [assocGet]
  | cons p ps ih =>
    by_cases h : p.1 = k
    · simp [assocGet, h]
    · simp [assocGet, h, ih]

theorem assocGet_map_replace_ne {α : Type} (m : List (JStr × α)) (k k' : JStr) (v : α)
    (h : k' ≠ k) :
    assocGet (m.map (fun p => if p.1 = k then (k, v) else p)) k' = assocGet m k' := by
  induction m with
  | nil => simp [assocGet]
  | cons p ps ih =>
    simp only [List.map_cons]
    by_cases hp : p.1 = k
    · rw [if_pos hp]
      show (if k = k' then some v else _) = _
      rw [if_neg (fun hh => h hh.symm), ih]
      show _ = (if p.1 = k' then some p.2 else assocGet ps k')
      rw [if_neg (fun hh : p.1 = k' => h (hh ▸ hp))]
    · rw [if_neg hp]
      show (if p.1 = k' then some p.2 else _) = (if p.1 = k' then some p.2 else _)
      by_cases hk : p.1 = k' <;> simp [hk, ih]

theorem assocGet_jsSet {α : Type} (m : List (JStr × α)) (k k' : JStr) (v : α) :
    assocGet (jsSet m k v) k' = if k' = k then some v else assocGet m k' := by
  unfold jsSet
  by_cases hs : (assocGet m k).isSome = true
  · rw [if_pos hs]
    by_cases h : k' = k
    · subst h; rw [if_pos rfl, assocGet_map_replace_self, if_pos hs]
    · rw [if_neg h, assocGet_map_replace_ne _ _ _ _ h]
  · rw [if_neg hs, assocGet_append]
    by_cases h : k' = k
    · subst h
      have : assocGet m k' = none := by
        cases hx : assocGet m k' with
        | none => rfl
        | some w => rw [hx] at hs; simp at hs
      simp [this, assocGet, Option.orElse]
    · cases hx : assocGet m k' with
      | none => simp [hx, assocGet, Ne.symm h, Option.orElse, h]
      | some w => simp [hx, Option.orElse, h]

theorem assocGet_jsPush (m : List (JStr × List JStr)) (k k' v : JStr) :
    assocGet (jsPush m k v) k'
      = if k' = k then some (((assocGet m k).getD []) ++ [v]) else assocGet m k' := by
  unfold jsPush
  exact assocGet_jsSet m k k' _

theorem jsSet_fresh {α : Type} (m : List (JStr × α)) (k : JStr) (v : α)
    (h : assocGet m k = none) : jsSet m k v = m ++ [(k, v)] := by
  unfold jsSet
  rw [h]
  rfl

/-! ### Exactness of the executable twins -/

theorem list_any_congr {α : Type} {l : List α} {p q : α → Bool}
    (h : ∀ a ∈ l, p a = q a) : l.any p = l.any q := by
  induction l with
  | nil => rfl
  | cons x xs ih => simp only [List.any_cons, h x (List.mem_cons_self x xs),
      ih (fun a ha => h a (List.mem_cons_of_mem x ha))]

theorem ratio_ge_iff (overlap minTokens thr : ℕ) (h : 0 < minTokens) :
    ((thr : ℚ) / 10 ≤ (overlap : ℚ) / (minTokens : ℚ)) ↔ thr * minTokens ≤ 10 * overlap := by
  rw [div_le_div_iff₀ (by norm_num) (by exact_mod_cast h)]
  norm_cast
  omega

theorem tokenOverlapMatch_eq_exec (q : List JStr) (r : SponsorRec) :
    tokenOverlapMatch q r = tokenOverlapMatchExec q r := by
  simp only [tokenOverlapMatch, tokenOverlapMatchExec]
  by_cases h0 : (sponsorTokenSet r).length = 0
  · rw [if_pos h0, if_pos h0]
  · rw [if_neg h0, if_neg h0]
    by_cases hm : min q.length (sponsorTokenSet r).length = 0
    · rw [if_pos hm]
      have hcast : ((min q.length (sponsorTokenSet r).length : ℕ) : ℚ) = 0 := by
        rw [hm]; norm_num
      rw [decide_eq_false]
      intro hge
      rw [ge_iff_le, hcast, div_zero] at hge
      have h3 : ¬ (min q.length (sponsorTokenSet r).length ≥ 3) := by omega
      rw [if_neg h3] at hge
      norm_num at hge
    · rw [if_neg hm]
      have hpos : 0 < min q.length (sponsorTokenSet r).length := Nat.pos_of_ne_zero hm
      by_cases h3 : min q.length (sponsorTokenSet r).length ≥ 3
      · rw [if_pos h3, if_pos h3, decide_eq_decide]
        rw [ge_iff_le, show ((6:ℚ)/10) = ((6:ℕ):ℚ)/10 by norm_num,
          ratio_ge_iff _ _ _ hpos]
      · rw [if_neg h3, if_neg h3, decide_eq_decide]
        rw [ge_iff_le, show ((8:ℚ)/10) = ((8:ℕ):ℚ)/10 by norm_num,
          ratio_ge_iff _ _ _ hpos]

theorem floor85 (L : ℕ) :
    ⌊(1 - (85 : ℚ) / 100) * (L : ℚ)⌋ = ((15 * L / 100 : ℕ) : ℤ) := by
  have h : (1 - (85 : ℚ) / 100) * (L : ℚ) = ((15 * L : ℕ) : ℚ) / ((100 : ℕ) : ℚ) := by
    push_cast; ring
  rw [h, Rat.floor_natCast_div_natCast]
  rfl

theorem checkFuzzyMatch_eq_exec85 (m : Matcher) (q : JStr) :
    checkFuzzyMatch m q (85 / 100) = checkFuzzyMatchExec85 m q := by
  simp only [checkFuzzyMatch, checkFuzzyMatchExec85, floor85]
  have hcond : ((lowerStr q).length < 3
      ∨ ((15 * (lowerStr q).length / 100 : ℕ) : ℤ) < 1)
      ↔ ((lowerStr q).length < 3 ∨ 15 * (lowerStr q).length / 100 < 1) := by
    constructor <;> intro h <;> rcases h with h | h
    · exact Or.inl h
    · exact Or.inr (by exact_mod_cast h)
    · exact Or.inl h
    · exact Or.inr (by exact_mod_cast h)
  rw [if_congr hcond rfl ?_]
  apply list_any_congr
  intro p _
  have c1 : ((lev (lowerStr q) (lowerStr p.2.primaryName) : ℤ)
      ≤ ((15 * (lowerStr q).length / 100 : ℕ) : ℤ))
      ↔ (lev (lowerStr q) (lowerStr p.2.primaryName)
      ≤ 15 * (lowerStr q).length / 100) := by exact_mod_cast Iff.rfl
  have c2 : ((lev (normalizeCompanyName q) p.2.normalizedName : ℤ)
      ≤ ((15 * (normalizeCompanyName q).length / 100 : ℕ) : ℤ))
      ↔ (lev (normalizeCompanyName q) p.2.normalizedName
      ≤ 15 * (normalizeCompanyName q).length / 100) := by exact_mod_cast Iff.rfl
  rw [decide_eq_decide.mpr c1, decide_eq_decide.mpr c2]
  have c3 : ∀ a ∈ p.2.aliases.take 3,
      (decide ((lev (lowerStr q) (lowerStr a) : ℤ)
        ≤ ((15 * (lowerStr q).length / 100 : ℕ) : ℤ)))
      = decide (lev (lowerStr q) (lowerStr a) ≤ 15 * (lowerStr q).length / 100) := by
    intro a _
    exact decide_eq_decide.mpr (by exact_mod_cast Iff.rfl)
  rw [list_any_congr c3]

theorem checkTokenMatch_eq_exec (m : Matcher) (q : JStr) :
    checkTokenMatch m q = checkTokenMatchExec m q := by
  simp only [checkTokenMatch, checkTokenMatchExec, tokenOverlapMatch_eq_exec]

theorem isRecognizedSponsor_eq_exec (m : Matcher) (v : JsValue) :
    isRecognizedSponsor m v = isRecognizedSponsorExec m v := by
  cases v with
  | str s =>
    simp only [isRecognizedSponsor, isRecognizedSponsorExec,
      checkTokenMatch_eq_exec, checkFuzzyMatch_eq_exec85]
  | null => rfl
  | undefined => rfl
  | other => rfl

/-! ### Folding maps with fresh keys -/

theorem orElse_none {α : Type} (f : Unit → Option α) : Option.orElse none f = f () := rfl

theorem orElse_some {α : Type} (v : α) (f : Unit → Option α) :
    Option.orElse (some v) f = some v := rfl

theorem assocGet_cons_eq {α : Type} (k : JStr) (v : α) (ps : List (JStr × α)) :
    assocGet ((k, v) :: ps) k = some v := by
  show (if k = k then some v else assocGet ps k) = some v
  rw [if_pos rfl]

theorem assocGet_cons_ne {α : Type} (a k : JStr) (v : α) (ps : List (JStr × α))
    (h : ¬ a = k) : assocGet ((a, v) :: ps) k = assocGet ps k := by
  show (if a = k then some v else assocGet ps k) = assocGet ps k
  rw [if_neg h]

theorem foldl_jsSet_fresh {α : Type} :
    ∀ (ps : List (JStr × α)) (acc : List (JStr × α)),
      (ps.map Prod.fst).Nodup →
      (∀ p ∈ ps, assocGet acc p.1 = none) →
      ∀ k, assocGet (ps.foldl (fun m p => jsSet m p.1 p.2) acc) k
        = ((assocGet acc k).orElse (fun _ => assocGet ps k)) := by
  intro ps
  induction ps with
  | nil =>
    intro acc _ _ k
    show assocGet acc k = (assocGet acc k).orElse (fun _ => assocGet [] k)
    cases hx : assocGet acc k
    · rw [orElse_none]; rfl
    · rw [orElse_some]
  | cons p ps ih =>
    intro acc hnd hfresh k
    have hstep : jsSet acc p.1 p.2 = acc ++ [(p.1, p.2)] :=
      jsSet_fresh _ _ _ (hfresh p (List.mem_cons_self p ps))
    rw [List.map_cons] at hnd
    have hnd' : (ps.map Prod.fst).Nodup := (List.nodup_cons.mp hnd).2
    have hhead : p.1 ∉ ps.map Prod.fst := (List.nodup_cons.mp hnd).1
    have hfresh' : ∀ q ∈ ps, assocGet (acc ++ [(p.1, p.2)]) q.1 = none := by
      intro q hq
      rw [assocGet_append, hfresh q (List.mem_cons_of_mem p hq), orElse_none]
      exact assocGet_cons_ne _ _ _ _
        (fun hh => hhead (hh ▸ List.mem_map_of_mem Prod.fst hq))
    have hmain := ih (acc ++ [(p.1, p.2)]) hnd' hfresh' k
    simp only [List.foldl_cons, hstep]
    rw [hmain, assocGet_append]
    by_cases hk : p.1 = k
    · subst hk
      rw [hfresh p (List.mem_cons_self p ps), orElse_none, orElse_none]
      have hp : (p.1, p.2) = p := rfl
      rw [assocGet_cons_eq]
      show some p.2 = assocGet (p :: ps) p.1
      rw [show p = (p.1, p.2) from rfl, assocGet_cons_eq]
    · have h1 : assocGet [(p.1, p.2)] k = none := by
        rw [assocGet_cons_ne _ _ _ _ hk]; rfl
      have h2 : assocGet (p :: ps) k = assocGet ps k := by
        rw [show p = (p.1, p.2) from rfl, assocGet_cons_ne _ _ _ _ hk]
      simp only [h1, h2]
      cases hx : assocGet acc k
      · simp only [orElse_none]
      · simp only [orElse_some]

theorem assocGet_foldl_jsPush :
    ∀ (ws : List JStr) (m : List (JStr × List JStr)) (idv : JStr) (key : JStr),
      ws.Nodup →
      (assocGet (ws.foldl (fun mm w => jsPush mm w idv) m) key).getD []
        = ((assocGet m key).getD []) ++ (if key ∈ ws then [idv] else []) := by
  intro ws
  induction ws with
  | nil =>
    intro m idv key _
    rw [List.foldl_nil, if_neg (List.not_mem_nil key), List.append_nil]
  | cons w ws ih =>
    intro m idv key hnd
    have hnd' : ws.Nodup := (List.nodup_cons.mp hnd).2
    have hw : w ∉ ws := (List.nodup_cons.mp hnd).1
    simp only [List.foldl_cons]
    rw [ih (jsPush m w idv) idv key hnd', assocGet_jsPush]
    by_cases hk : key = w
    · subst hk
      rw [if_pos rfl, if_pos (List.mem_cons_self key ws), if_neg hw]
      simp only [Option.getD_some, List.append_nil]
    · rw [if_neg hk]
      by_cases hkw : key ∈ ws
      · rw [if_pos hkw, if_pos (List.mem_cons_of_mem w hkw)]
      · rw [if_neg hkw, if_neg (by
          intro hmem
          rcases List.mem_cons.mp hmem with hh | hh
          · exact hk hh
          · exact hkw hh)]

/-! ### Evaluation helpers for the matcher -/

theorem isRecognizedSponsor_str_eval (m : Matcher) (s : JStr) (hm : m.loaded = true)
    (hs : s ≠ []) (ht : ¬ (jsTrim s).length = 0) :
    isRecognizedSponsor m (JsValue.str s)
      = (checkExactMatch m (jsTrim s) || checkNormalizedMatch m (jsTrim s)
         || checkTokenMatch m (jsTrim s) || checkFuzzyMatch m (jsTrim s) (85 / 100)) := by
  simp only [isRecognizedSponsor]
  rw [if_neg (by
      rintro (hl | he)
      · rw [hm] at hl; exact Bool.noConfusion hl
      · exact hs he),
    if_neg ht]

theorem checkExactMatch_of_primary (m : Matcher) (p : JStr × SponsorRec)
    (hp : p ∈ m.sponsors) (hne : p.2.primaryName ≠ []) (q : JStr)
    (hq : lowerStr p.2.primaryName = lowerStr q) : checkExactMatch m q = true := by
  simp only [checkExactMatch]
  rw [List.any_eq_true]
  refine ⟨p, hp, ?_⟩
  simp [hne, hq]

theorem checkExactMatch_of_alias (m : Matcher) (p : JStr × SponsorRec)
    (hp : p ∈ m.sponsors) (a : JStr) (ha : a ∈ p.2.aliases) (q : JStr)
    (hq : lowerStr a = lowerStr q) : checkExactMatch m q = true := by
  simp only [checkExactMatch]
  rw [List.any_eq_true]
  refine ⟨p, hp, ?_⟩
  have halias : p.2.aliases.any (fun x => decide (lowerStr x = lowerStr q)) = true :=
    List.any_eq_true.mpr ⟨a, ha, by simp [hq]⟩
  simp [halias]

/-! ### Claim theorems -/

/-- Claim C2 (amended).  normalizeCompanyName is case-insensitive: for
every string s it agrees on s and on the upper-cased s.  It is not
idempotent in general: the string n-space-v normalizes to nv, which a
second pass recognises as a business suffix and deletes. -/
theorem normalizeCompanyName_case_insensitive :
    (∀ s : JStr, normalizeCompanyName (upperStr s) = normalizeCompanyName s)
    ∧ normalizeCompanyName (("n v").toList) = ("nv").toList
    ∧ normalizeCompanyName (normalizeCompanyName (("n v").toList)) = [] := by
  refine ⟨?_, by decide, by decide⟩
  intro s
  unfold normalizeCompanyName
  by_cases hs : s = []
  · subst hs; rfl
  · rw [if_neg (fun hh => hs ((upperStr_eq_nil_iff s).mp hh)), if_neg hs,
      lowerStr_upperStr]

/-- Claim C2, counterexample to the claim as stated: normalizeCompanyName
is not idempotent. -/
theorem normalizeCompanyName_idempotence_cex :
    ¬ (∀ s : JStr, normalizeCompanyName (normalizeCompanyName s)
        = normalizeCompanyName s) := by
  intro h
  exact absurd (h (("n v").toList)) (by decide)

/-- Claim C5.  isRecognizedSponsor is total and returns false on every
non-string value, on every string whose trim is empty (hence on the empty
string and whitespace), and on every input when the matcher is not
loaded. -/
theorem isRecognizedSponsor_failsafe :
    (∀ (m : Matcher) (v : JsValue), (∀ s, v ≠ JsValue.str s) →
      isRecognizedSponsor m v = false)
    ∧ (∀ (m : Matcher) (s : JStr), jsTrim s = [] →
      isRecognizedSponsor m (JsValue.str s) = false)
    ∧ (∀ (m : Matcher) (v : JsValue), m.loaded = false →
      isRecognizedSponsor m v = false) := by
  refine ⟨?_, ?_, ?_⟩
  · intro m v h
    cases v with
    | str s => exact absurd rfl (h s)
    | null => rfl
    | undefined => rfl
    | other => rfl
  · intro m s h
    simp only [isRecognizedSponsor]
    by_cases g1 : m.loaded = false ∨ s = []
    · rw [if_pos g1]
    · rw [if_neg g1, if_pos (by rw [h]; rfl)]
  · intro m v h
    cases v with
    | str s =>
      simp only [isRecognizedSponsor]
      rw [if_pos (Or.inl h)]
    | null => rfl
    | undefined => rfl
    | other => rfl

/-- Claim C5, witness. -/
theorem isRecognizedSponsor_failsafe_witness :
    isRecognizedSponsor { loaded := true } JsValue.null = false
    ∧ isRecognizedSponsor { loaded := true } (JsValue.str (("  ").toList)) = false
    ∧ isRecognizedSponsor {} (JsValue.str (("ASML").toList)) = false :=
  ⟨isRecognizedSponsor_failsafe.1 _ _ (fun s h => JsValue.noConfusion h),
   isRecognizedSponsor_failsafe.2.1 _ _ (by decide),
   isRecognizedSponsor_failsafe.2.2 _ _ rfl⟩

/-- Claim C1 (amended).  For every loaded matcher and every record whose
primary name is non-empty and trimmed, isRecognizedSponsor accepts the
primary name and its upper-cased form; and it accepts every non-empty
trimmed alias of the record.  (The amendment restricts the claim to
trimmed, non-empty names: the exact-match comparison trims only the
query, so a record whose stored name carries surrounding whitespace is
not found — see the counterexample.) -/
theorem isRecognizedSponsor_primary_upper_alias (m : Matcher) (hm : m.loaded = true)
    (p : JStr × SponsorRec) (hp : p ∈ m.sponsors) :
    (jsTrim p.2.primaryName = p.2.primaryName → p.2.primaryName ≠ [] →
      isRecognizedSponsor m (JsValue.str p.2.primaryName) = true
      ∧ isRecognizedSponsor m (JsValue.str (upperStr p.2.primaryName)) = true)
    ∧ (∀ a ∈ p.2.aliases, jsTrim a = a → a ≠ [] →
      isRecognizedSponsor m (JsValue.str a) = true) := by
  constructor
  · intro htrim hne
    constructor
    · rw [isRecognizedSponsor_str_eval m _ hm hne
        (by rw [htrim]; exact fun hh => hne (List.length_eq_zero.mp hh))]
      rw [htrim, checkExactMatch_of_primary m p hp hne _ rfl]
      rfl
    · have hne' : upperStr p.2.primaryName ≠ [] :=
        fun hh => hne ((upperStr_eq_nil_iff _).mp hh)
      have htrim' : jsTrim (upperStr p.2.primaryName) = upperStr p.2.primaryName := by
        rw [jsTrim_upperStr, htrim]
      rw [isRecognizedSponsor_str_eval m _ hm hne'
        (by rw [htrim']; exact fun hh => hne' (List.length_eq_zero.mp hh))]
      rw [htrim', checkExactMatch_of_primary m p hp hne _ (lowerStr_upperStr _).symm]
      rfl
  · intro a ha htrim hne
    rw [isRecognizedSponsor_str_eval m _ hm hne
      (by rw [htrim]; exact fun hh => hne (List.length_eq_zero.mp hh))]
    rw [htrim, checkExactMatch_of_alias m p hp a ha _ rfl]
    rfl

/-- Claim C1, witness. -/
theorem isRecognizedSponsor_primary_upper_alias_witness :
    isRecognizedSponsor
        (loadSponsorData
          { sponsors := [(("a1").toList,
              { primaryName := ("Acme").toList, aliases := [("Acme BV").toList] })],
            index := none })
        (JsValue.str ("Acme").toList) = true
    ∧ isRecognizedSponsor
        (loadSponsorData
          { sponsors := [(("a1").toList,
              { primaryName := ("Acme").toList, aliases := [("Acme BV").toList] })],
            index := none })
        (JsValue.str ("ACME").toList) = true
    ∧ isRecognizedSponsor
        (loadSponsorData
          { sponsors := [(("a1").toList,
              { primaryName := ("Acme").toList, aliases := [("Acme BV").toList] })],
            index := none })
        (JsValue.str ("Acme BV").toList) = true := by
  have h := isRecognizedSponsor_primary_upper_alias
    (loadSponsorData
      { sponsors := [(("a1").toList,
          { primaryName := ("Acme").toList, aliases := [("Acme BV").toList] })],
        index := none })
    rfl
    ((("a1").toList, { primaryName := ("Acme").toList, aliases := [("Acme BV").toList] }))
    (by decide)
  have hpair := h.1 (by decide) (by decide)
  refine ⟨hpair.1, ?_, h.2 (("Acme BV").toList) (by decide) (by decide) (by decide)⟩
  have hup : upperStr (("Acme").toList) = ("ACME").toList := by decide
  have := hpair.2
  rwa [hup] at this

/-- Claim C1, counterexample to the claim as stated: a matcher loaded
with a record whose primary name is a bare space answers false on that
primary name, because the query is trimmed to the empty string before any
strategy runs. -/
theorem isRecognizedSponsor_primary_cex :
    ¬ (∀ (m : Matcher), m.loaded = true → ∀ p ∈ m.sponsors,
        isRecognizedSponsor m (JsValue.str p.2.primaryName) = true) := by
  intro h
  have := h
    (loadSponsorData
      { sponsors := [(("a1").toList, { primaryName := (" ").toList })],
        index := none })
    (by decide)
    ((("a1").toList, ({ primaryName := (" ").toList } : SponsorRec)))
    (by decide)
  exact absurd this (by decide)

/-- The matched field of getMatchDetails for a loaded matcher and a
non-empty query is the disjunction of all five checks, the domain check
included. -/
theorem getMatchDetails_matched_eq (m : Matcher) (s : JStr) (hm : m.loaded = true)
    (hs : s ≠ []) :
    (getMatchDetails m s).matched =
      (checkExactMatch m (jsTrim s) || checkNormalizedMatch m (jsTrim s)
       || checkTokenMatch m (jsTrim s) || checkFuzzyMatch m (jsTrim s) (85 / 100)
       || checkDomainMatch m (jsTrim s)) := by
  simp only [getMatchDetails]
  rw [if_neg (by
    rintro (hl | he)
    · rw [hm] at hl; exact Bool.noConfusion hl
    · exact hs he)]

/-- Claim C10 (amended).  A domain guess is never consulted by
isRecognizedSponsor: whenever the exact, normalized, token and fuzzy
stages all fail, isRecognizedSponsor returns false regardless of
checkDomainMatch.  getMatchDetails, however, includes the domain check:
its matched field is the disjunction of all five checks, so it reports
matched equal to true in that situation (see the counterexample). -/
theorem domain_guess_not_sufficient :
    (∀ (m : Matcher) (s : JStr),
      checkExactMatch m (jsTrim s) = false →
      checkNormalizedMatch m (jsTrim s) = false →
      checkTokenMatch m (jsTrim s) = false →
      checkFuzzyMatch m (jsTrim s) (85 / 100) = false →
      isRecognizedSponsor m (JsValue.str s) = false)
    ∧ (∀ (m : Matcher) (s : JStr), m.loaded = true → s ≠ [] →
      (getMatchDetails m s).matched =
        (checkExactMatch m (jsTrim s) || checkNormalizedMatch m (jsTrim s)
         || checkTokenMatch m (jsTrim s) || checkFuzzyMatch m (jsTrim s) (85 / 100)
         || checkDomainMatch m (jsTrim s))) := by
  constructor
  · intro m s h1 h2 h3 h4
    simp only [isRecognizedSponsor]
    by_cases g1 : m.loaded = false ∨ s = []
    · rw [if_pos g1]
    · rw [if_neg g1]
      by_cases g2 : (jsTrim s).length = 0
      · rw [if_pos g2]
      · rw [if_neg g2, h1, h2, h3, h4]
        rfl
  · exact fun m s hm hs => getMatchDetails_matched_eq m s hm hs

/-- Claim C10, witness. -/
theorem domain_guess_not_sufficient_witness :
    isRecognizedSponsor
      (loadSponsorData
        { sponsors := [],
          index := some { byDomain := [(("acme.com").toList, ("x1").toList)] } })
      (JsValue.str ("Acme").toList) = false := by
  apply domain_guess_not_sufficient.1
  · decide
  · decide
  · rw [checkTokenMatch_eq_exec]; decide
  · rw [checkFuzzyMatch_eq_exec85]; decide

/-- Claim C10, counterexample to the claim as stated: with a prebuilt
domain index containing acme.com and no other data, the query Acme fails
all four matching stages and succeeds on the domain check, and
getMatchDetails reports matched equal to true, not false. -/
theorem domain_guess_details_cex :
    ¬ (∀ (m : Matcher) (s : JStr), m.loaded = true →
        checkExactMatch m (jsTrim s) = false →
        checkNormalizedMatch m (jsTrim s) = false →
        checkTokenMatch m (jsTrim s) = false →
        checkFuzzyMatch m (jsTrim s) (85 / 100) = false →
        checkDomainMatch m (jsTrim s) = true →
        (getMatchDetails m s).matched = false) := by
  intro h
  have hfuzzy : checkFuzzyMatch
      (loadSponsorData
        { sponsors := [],
          index := some { byDomain := [(("acme.com").toList, ("x1").toList)] } })
      (jsTrim ("Acme").toList) (85 / 100) = false := by
    rw [checkFuzzyMatch_eq_exec85]; decide
  have htoken : checkTokenMatch
      (loadSponsorData
        { sponsors := [],
          index := some { byDomain := [(("acme.com").toList, ("x1").toList)] } })
      (jsTrim ("Acme").toList) = false := by
    rw [checkTokenMatch_eq_exec]; decide
  have hfalse := h
    (loadSponsorData
      { sponsors := [],
        index := some { byDomain := [(("acme.com").toList, ("x1").toList)] } })
    (("Acme").toList) (by decide) (by decide) (by decide) htoken hfuzzy (by decide)
  have htrue : (getMatchDetails
      (loadSponsorData
        { sponsors := [],
          index := some { byDomain := [(("acme.com").toList, ("x1").toList)] } })
      (("Acme").toList)).matched = true := by
    rw [getMatchDetails_matched_eq _ _ (by decide) (by decide), htoken, hfuzzy]
    rw [show checkExactMatch
        (loadSponsorData
          { sponsors := [],
            index := some { byDomain := [(("acme.com").toList, ("x1").toList)] } })
        (jsTrim ("Acme").toList) = false from by decide]
    rw [show checkNormalizedMatch
        (loadSponsorData
          { sponsors := [],
            index := some { byDomain := [(("acme.com").toList, ("x1").toList)] } })
        (jsTrim ("Acme").toList) = false from by decide]
    rw [show checkDomainMatch
        (loadSponsorData
          { sponsors := [],
            index := some { byDomain := [(("acme.com").toList, ("x1").toList)] } })
        (jsTrim ("Acme").toList) = true from by decide]
    rfl
  rw [hfalse] at htrue
  exact Bool.noConfusion htrue

/-- Claim C3.  In the token-overlap stage a candidate is accepted exactly
when the overlap count divided by the smaller token count reaches the
threshold: six tenths when the smaller count is at least three, eight
tenths otherwise (division read over the rationals; an empty candidate
token set makes the ratio zero and is rejected, matching the code).
In particular a query sharing exactly sixty percent of tokens with a
candidate whose smaller token count is at least three passes, and one
sharing fifty-nine percent does not. -/
theorem tokenOverlap_acceptance :
    (∀ (queryTokens : List JStr) (record : SponsorRec),
      tokenOverlapMatch queryTokens record = true ↔
        ((queryTokens.countP (fun t => decide (lowerStr t ∈ sponsorTokenSet record)) : ℚ)
            / ((min queryTokens.length (sponsorTokenSet record).length : ℕ) : ℚ)
          ≥ (if min queryTokens.length (sponsorTokenSet record).length ≥ 3
             then (6 : ℚ) / 10 else (8 : ℚ) / 10)))
    ∧ tokenOverlapMatch
        [("aa").toList, ("bb").toList, ("cc").toList, ("dd").toList, ("ee").toList]
        { searchTokens := [("aa").toList, ("bb").toList, ("cc").toList,
            ("xx").toList, ("yy").toList] } = true
    ∧ tokenOverlapMatch
        ((List.range 59).map (fun n => 's' :: (Nat.repr n).toList)
          ++ (List.range 41).map (fun n => 'q' :: (Nat.repr n).toList))
        { searchTokens := (List.range 59).map (fun n => 's' :: (Nat.repr n).toList)
            ++ (List.range 41).map (fun n => 'u' :: (Nat.repr n).toList) } = false := by
  refine ⟨?_, ?_, ?_⟩
  · intro queryTokens record
    simp only [tokenOverlapMatch]
    by_cases h0 : (sponsorTokenSet record).length = 0
    · rw [if_pos h0]
      constructor
      · intro hh; exact Bool.noConfusion hh
      · intro hge
        exfalso
        rw [h0] at hge
        simp only [Nat.min_zero, Nat.cast_zero, div_zero, ge_iff_le] at hge
        rw [if_neg (by omega)] at hge
        norm_num at hge
    · rw [if_neg h0, decide_eq_true_eq]
  · rw [tokenOverlapMatch_eq_exec]; decide
  · rw [tokenOverlapMatch_eq_exec]; decide

/-- Claim C4.  The fuzzy stage uses the bound
maxDistance = floor((1 - 85/100) times the query length) and returns
false whenever the query is shorter than three characters or the bound is
below one; when it runs, any record whose primary name lies within the
bound of the lower-cased query makes it return true.  For length ten the
bound is one, so an edit distance of one matches and an edit distance of
two does not. -/
theorem fuzzy_bound_and_skip :
    (∀ (m : Matcher) (q : JStr),
      ((lowerStr q).length < 3
        ∨ ⌊(1 - (85 : ℚ) / 100) * ((lowerStr q).length : ℚ)⌋ < 1) →
      checkFuzzyMatch m q (85 / 100) = false)
    ∧ (∀ (m : Matcher) (q : JStr) (p : JStr × SponsorRec),
      p ∈ m.sponsors → p.2.primaryName ≠ [] →
      (lev (lowerStr q) (lowerStr p.2.primaryName) : ℤ)
        ≤ ⌊(1 - (85 : ℚ) / 100) * ((lowerStr q).length : ℚ)⌋ →
      ¬ ((lowerStr q).length < 3
        ∨ ⌊(1 - (85 : ℚ) / 100) * ((lowerStr q).length : ℚ)⌋ < 1) →
      checkFuzzyMatch m q (85 / 100) = true)
    ∧ ⌊(1 - (85 : ℚ) / 100) * ((10 : ℕ) : ℚ)⌋ = 1
    ∧ checkFuzzyMatch
        (loadSponsorData
          { sponsors := [(("f1").toList, { primaryName := ("abcdefghix").toList })],
            index := none })
        (("abcdefghij").toList) (85 / 100) = true
    ∧ checkFuzzyMatch
        (loadSponsorData
          { sponsors := [(("f2").toList, { primaryName := ("abcdefghxy").toList })],
            index := none })
        (("abcdefghij").toList) (85 / 100) = false := by
  refine ⟨?_, ?_, ?_, ?_, ?_⟩
  · intro m q hskip
    simp only [checkFuzzyMatch]
    rw [if_pos hskip]
  · intro m q p hp hne hlev hskip
    simp only [checkFuzzyMatch]
    rw [if_neg hskip, List.any_eq_true]
    exact ⟨p, hp, by simp [hne, hlev]⟩
  · rw [floor85]; decide
  · rw [checkFuzzyMatch_eq_exec85]; decide
  · rw [checkFuzzyMatch_eq_exec85]; decide

/-- Claim C4, witness. -/
theorem fuzzy_bound_and_skip_witness :
    checkFuzzyMatch
      (loadSponsorData
        { sponsors := [(("f1").toList, { primaryName := ("abcdefghix").toList })],
          index := none })
      (("abcdefghij").toList) (85 / 100) = true
    ∧ checkFuzzyMatch {} (("ab").toList) (85 / 100) = false := by
  constructor
  · exact fuzzy_bound_and_skip.2.1
      (loadSponsorData
        { sponsors := [(("f1").toList, { primaryName := ("abcdefghix").toList })],
          index := none })
      (("abcdefghij").toList)
      ((("f1").toList, ({ primaryName := ("abcdefghix").toList } : SponsorRec)))
      (by decide) (by decide)
      (by rw [floor85]; decide)
      (by rw [floor85]; decide)
  · exact fuzzy_bound_and_skip.1 {} (("ab").toList) (Or.inl (by decide))

/-- Claim C9.  After index construction, byNormalizedName is
last-write-wins: every key maps to the id of the last record in build
order whose (non-empty) normalizedName equals the key.  byFirstWord and
bySearchToken accumulate every id in insertion order: the list under a
key is the list of ids of the records carrying that word or token, in
build order (per-record word and token lists are duplicate-free, as the
pipeline produces them). -/
theorem index_construction (sponsors : List (JStr × SponsorRec))
    (hfw : ∀ p ∈ sponsors, p.2.firstWords.Nodup)
    (hst : ∀ p ∈ sponsors, p.2.searchTokens.Nodup) :
    (∀ key : JStr,
      assocGet (ProcessSponsors.buildSearchIndexes sponsors).byNormalizedName key
        = ((sponsors.filter (fun p => decide (p.2.normalizedName ≠ [])
            && decide (p.2.normalizedName = key))).map Prod.fst).getLast?)
    ∧ (∀ key : JStr,
      (assocGet (ProcessSponsors.buildSearchIndexes sponsors).byFirstWord key).getD []
        = (sponsors.filter (fun p => decide (key ∈ p.2.firstWords))).map Prod.fst)
    ∧ (∀ key : JStr,
      (assocGet (ProcessSponsors.buildSearchIndexes sponsors).bySearchToken key).getD []
        = (sponsors.filter (fun p => decide (key ∈ p.2.searchTokens))).map Prod.fst) := by
  induction sponsors using List.reverseRecOn with
  | nil =>
    exact ⟨fun key => rfl, fun key => rfl, fun key => rfl⟩
  | append_singleton rs p ih =>
    obtain ⟨ih1, ih2, ih3⟩ := ih
      (fun q hq => hfw q (List.mem_append_left _ hq))
      (fun q hq => hst q (List.mem_append_left _ hq))
    have hpmem : p ∈ rs ++ [p] := List.mem_append_right _ (List.mem_singleton.mpr rfl)
    have hbuild : ProcessSponsors.buildSearchIndexes (rs ++ [p])
        = ProcessSponsors.buildStep (ProcessSponsors.buildSearchIndexes rs) p := by
      unfold ProcessSponsors.buildSearchIndexes
      rw [List.foldl_append, List.foldl_cons, List.foldl_nil]
    refine ⟨?_, ?_, ?_⟩
    · intro key
      rw [hbuild]
      show assocGet (if p.2.normalizedName ≠ []
          then jsSet (ProcessSponsors.buildSearchIndexes rs).byNormalizedName
            p.2.normalizedName p.1
          else (ProcessSponsors.buildSearchIndexes rs).byNormalizedName) key = _
      rw [List.filter_append, List.map_append, List.getLast?_append, List.filter_singleton]
      by_cases hn : p.2.normalizedName ≠ []
      · by_cases hk : p.2.normalizedName = key
        · rw [if_pos hn, assocGet_jsSet, if_pos hk.symm,
            show (decide (p.2.normalizedName ≠ []) && decide (p.2.normalizedName = key))
              = true by rw [decide_eq_true hn, decide_eq_true hk]; rfl]
          rfl
        · rw [if_pos hn, assocGet_jsSet, if_neg (fun hh => hk hh.symm), ih1,
            show (decide (p.2.normalizedName ≠ []) && decide (p.2.normalizedName = key))
              = false by rw [decide_eq_false hk, Bool.and_false]]
          rfl
      · rw [if_neg hn, ih1,
          show (decide (p.2.normalizedName ≠ []) && decide (p.2.normalizedName = key))
            = false by rw [decide_eq_false hn, Bool.false_and]]
        rfl
    · intro key
      rw [hbuild]
      show (assocGet (p.2.firstWords.foldl (fun m w => jsPush m w p.1)
          (ProcessSponsors.buildSearchIndexes rs).byFirstWord) key).getD [] = _
      rw [assocGet_foldl_jsPush _ _ _ _ (hfw p hpmem), ih2,
        List.filter_append, List.map_append, List.filter_singleton]
      by_cases hk : key ∈ p.2.firstWords
      · rw [if_pos hk, show decide (key ∈ p.2.firstWords) = true from decide_eq_true hk]
        rfl
      · rw [if_neg hk, show decide (key ∈ p.2.firstWords) = false from decide_eq_false hk]
        rfl
    · intro key
      rw [hbuild]
      show (assocGet (p.2.searchTokens.foldl (fun m t => jsPush m t p.1)
          (ProcessSponsors.buildSearchIndexes rs).bySearchToken) key).getD [] = _
      rw [assocGet_foldl_jsPush _ _ _ _ (hst p hpmem), ih3,
        List.filter_append, List.map_append, List.filter_singleton]
      by_cases hk : key ∈ p.2.searchTokens
      · rw [if_pos hk, show decide (key ∈ p.2.searchTokens) = true from decide_eq_true hk]
        rfl
      · rw [if_neg hk, show decide (key ∈ p.2.searchTokens) = false from decide_eq_false hk]
        rfl

/-- Claim C9, witness: two records with the same normalizedName; the
lookup yields the second id, while byFirstWord accumulates both ids in
order. -/
theorem index_construction_witness :
    assocGet (ProcessSponsors.buildSearchIndexes
        [(("id1").toList, { normalizedName := ("acme").toList, firstWords := [("acme").toList], searchTokens := [("ac").toList] }),
         (("id2").toList, { normalizedName := ("acme").toList, firstWords := [("acme").toList], searchTokens := [("acme").toList] })]).byNormalizedName
      (("acme").toList) = some (("id2").toList)
    ∧ (assocGet (ProcessSponsors.buildSearchIndexes
        [(("id1").toList, { normalizedName := ("acme").toList, firstWords := [("acme").toList], searchTokens := [("ac").toList] }),
         (("id2").toList, { normalizedName := ("acme").toList, firstWords := [("acme").toList], searchTokens := [("acme").toList] })]).byFirstWord
      (("acme").toList)).getD [] = [("id1").toList, ("id2").toList] := by
  have h := index_construction
    [(("id1").toList, { normalizedName := ("acme").toList, firstWords := [("acme").toList], searchTokens := [("ac").toList] }),
     (("id2").toList, { normalizedName := ("acme").toList, firstWords := [("acme").toList], searchTokens := [("acme").toList] })]
    (by decide) (by decide)
  constructor
  · rw [h.1]; decide
  · rw [h.2.1]; decide

/-! ### First-occurrence deduplication (specification side of C8) -/

/-- The sequence of names that processCompanyData keeps: trimmed rows,
skipping empty names and names whose lower-cased form was seen before. -/
def dedupNames : List JStr → List JStr → List JStr
  | _, [] => []
  | seen, row :: rest =>
    let n := jsTrim row
    if n = [] ∨ lowerStr n ∈ seen then dedupNames seen rest
    else n :: dedupNames (seen ++ [lowerStr n]) rest

theorem dedupNames_spec :
    ∀ (rows seen : List JStr) (n : JStr), n ∈ dedupNames seen rows →
      lowerStr n ∉ seen ∧
      ((rows.map jsTrim).filter (fun m => decide (m ≠ []))).find?
        (fun m => decide (lowerStr m = lowerStr n)) = some n := by
  intro rows
  induction rows with
  | nil => intro seen n hn; exact absurd hn (List.not_mem_nil n)
  | cons row rest ih =>
    intro seen n hn
    simp only [dedupNames] at hn
    rw [List.map_cons, List.filter_cons]
    by_cases c1 : jsTrim row = [] ∨ lowerStr (jsTrim row) ∈ seen
    · rw [if_pos c1] at hn
      obtain ⟨h1, h2⟩ := ih seen n hn
      rcases c1 with cE | cS
      · rw [show (decide (jsTrim row ≠ [])) = false from decide_eq_false (by simpa using cE),
          if_neg Bool.false_ne_true]
        exact ⟨h1, h2⟩
      · refine ⟨h1, ?_⟩
        by_cases cE : jsTrim row = []
        · rw [show (decide (jsTrim row ≠ [])) = false from
            decide_eq_false (by simpa using cE), if_neg Bool.false_ne_true]
          exact h2
        · rw [show (decide (jsTrim row ≠ [])) = true from decide_eq_true cE, if_pos rfl]
          rw [List.find?_cons, show (decide (lowerStr (jsTrim row) = lowerStr n)) = false from
            decide_eq_false (fun hh => h1 (hh ▸ cS))]
          exact h2
    · rw [if_neg c1] at hn
      push_neg at c1
      obtain ⟨cE, cS⟩ := c1
      rw [show (decide (jsTrim row ≠ [])) = true from decide_eq_true cE, if_pos rfl]
      rcases List.mem_cons.mp hn with rfl | htail
      · refine ⟨cS, ?_⟩
        rw [List.find?_cons, show (decide (lowerStr (jsTrim row) = lowerStr (jsTrim row)))
          = true from decide_eq_true rfl]
      · obtain ⟨h1, h2⟩ := ih (seen ++ [lowerStr (jsTrim row)]) n htail
        have h1' : lowerStr n ∉ seen ∧ lowerStr n ≠ lowerStr (jsTrim row) := by
          constructor
          · exact fun hh => h1 (List.mem_append_left _ hh)
          · exact fun hh => h1 (List.mem_append_right _ (by rw [hh]; exact List.mem_singleton.mpr rfl))
        refine ⟨h1'.1, ?_⟩
        rw [List.find?_cons, show (decide (lowerStr (jsTrim row) = lowerStr n)) = false from
          decide_eq_false (fun hh => h1'.2 hh.symm)]
        exact h2

theorem dedupNames_mem_lower :
    ∀ (rows seen : List JStr) (s : JStr),
      s ∈ (dedupNames seen rows).map lowerStr
        ↔ (s ∉ seen ∧ ∃ row ∈ rows, jsTrim row ≠ [] ∧ lowerStr (jsTrim row) = s) := by
  intro rows
  induction rows with
  | nil =>
    intro seen s
    simp [dedupNames]
  | cons row rest ih =>
    intro seen s
    simp only [dedupNames]
    by_cases c1 : jsTrim row = [] ∨ lowerStr (jsTrim row) ∈ seen
    · rw [if_pos c1, ih]
      constructor
      · rintro ⟨h1, row', hrow', h2, h3⟩
        exact ⟨h1, row', List.mem_cons_of_mem _ hrow', h2, h3⟩
      · rintro ⟨h1, row', hrow', h2, h3⟩
        rcases List.mem_cons.mp hrow' with rfl | hmem
        · exfalso
          rcases c1 with cE | cS
          · exact h2 cE
          · exact h1 (h3 ▸ cS)
        · exact ⟨h1, row', hmem, h2, h3⟩
    · rw [if_neg c1]
      push_neg at c1
      obtain ⟨cE, cS⟩ := c1
      rw [List.map_cons, List.mem_cons, ih]
      constructor
      · rintro (rfl | ⟨h1, row', hrow', h2, h3⟩)
        · exact ⟨cS, row, List.mem_cons_self _ _, cE, rfl⟩
        · refine ⟨fun hh => h1 (List.mem_append_left _ hh), row',
            List.mem_cons_of_mem _ hrow', h2, h3⟩
      · rintro ⟨h1, row', hrow', h2, h3⟩
        rcases List.mem_cons.mp hrow' with rfl | hmem
        · exact Or.inl h3.symm
        · by_cases hs : s = lowerStr (jsTrim row)
          · exact Or.inl hs
          · refine Or.inr ⟨?_, row', hmem, h2, h3⟩
            intro hh
            rcases List.mem_append.mp hh with hh1 | hh2
            · exact h1 hh1
            · exact hs (List.mem_singleton.mp hh2)

theorem dedupNames_nodup_lower :
    ∀ (rows seen : List JStr), ((dedupNames seen rows).map lowerStr).Nodup := by
  intro rows
  induction rows with
  | nil => intro seen; simp [dedupNames]
  | cons row rest ih =>
    intro seen
    simp only [dedupNames]
    by_cases c1 : jsTrim row = [] ∨ lowerStr (jsTrim row) ∈ seen
    · rw [if_pos c1]; exact ih seen
    · rw [if_neg c1, List.map_cons, List.nodup_cons]
      refine ⟨?_, ih _⟩
      intro hmem
      have := (dedupNames_mem_lower rest (seen ++ [lowerStr (jsTrim row)])
        (lowerStr (jsTrim row))).mp hmem
      exact this.1 (List.mem_append_right _ (List.mem_singleton.mpr rfl))

/-- The record stored for one kept name. -/
def sponsorEntry (uid : JStr → JStr) (n : JStr) : JStr × SponsorRec :=
  (uid (lowerStr n), ProcessSponsors.generateSponsorRecord n)

theorem process_fold (uid : JStr → JStr) (hinj : Function.Injective uid) :
    ∀ (rows : List JStr) (ns : List JStr),
      (rows.foldl (fun st row =>
          let companyName := jsTrim row
          if companyName = [] ∨ lowerStr companyName ∈ st.1 then st
          else (st.1 ++ [lowerStr companyName],
                jsSet st.2 (uid (lowerStr companyName))
                  (ProcessSponsors.generateSponsorRecord companyName)))
        (ns.map lowerStr, ns.map (sponsorEntry uid))).2
      = ns.map (sponsorEntry uid)
        ++ (dedupNames (ns.map lowerStr) rows).map (sponsorEntry uid) := by
  intro rows
  induction rows with
  | nil => intro ns; simp [dedupNames]
  | cons row rest ih =>
    intro ns
    rw [List.foldl_cons]
    simp only [dedupNames]
    by_cases c1 : jsTrim row = [] ∨ lowerStr (jsTrim row) ∈ ns.map lowerStr
    · rw [if_pos c1]
      show (List.foldl _ (ns.map lowerStr, ns.map (sponsorEntry uid)) rest).2 = _
      rw [ih ns, if_pos c1]
    · have hc := c1
      rw [if_neg c1]
      push_neg at c1
      have hfreshkey : assocGet (ns.map (sponsorEntry uid))
          (uid (lowerStr (jsTrim row))) = none := by
        cases hx : assocGet (ns.map (sponsorEntry uid)) (uid (lowerStr (jsTrim row))) with
        | none => rfl
        | some w =>
          exfalso
          have hsome : (assocGet (ns.map (sponsorEntry uid))
              (uid (lowerStr (jsTrim row)))).isSome = true := by rw [hx]; rfl
          rw [assocGet_isSome_iff, List.map_map] at hsome
          obtain ⟨x, hx2, hx3⟩ := List.mem_map.mp hsome
          have := hinj hx3
          exact c1.2 (this ▸ List.mem_map_of_mem lowerStr hx2)
      rw [jsSet_fresh _ _ _ hfreshkey]
      have hns : (ns.map lowerStr ++ [lowerStr (jsTrim row)],
          ns.map (sponsorEntry uid) ++ [sponsorEntry uid (jsTrim row)])
          = ((ns ++ [jsTrim row]).map lowerStr, (ns ++ [jsTrim row]).map (sponsorEntry uid)) := by
        rw [List.map_append, List.map_append]
        rfl
      show (List.foldl _ (ns.map lowerStr ++ [lowerStr (jsTrim row)],
          ns.map (sponsorEntry uid) ++ [sponsorEntry uid (jsTrim row)]) rest).2 = _
      rw [hns, ih (ns ++ [jsTrim row]), if_neg hc]
      simp only [List.map_append, List.map_cons, List.map_nil, List.append_assoc,
        List.singleton_append, List.nil_append]

theorem processCompanyData_eq (uid : JStr → JStr) (hinj : Function.Injective uid)
    (rows : List JStr) :
    ProcessSponsors.processCompanyData uid rows
      = (dedupNames [] rows).map (sponsorEntry uid) := by
  have h := process_fold uid hinj rows []
  simpa using h

/-- Claim C8.  processCompanyData keeps exactly one record per distinct
lower-cased trimmed name: the lower-cased primary names of the output are
duplicate-free, a lower-cased name appears among them exactly when some
row trims to a non-empty name with that lower-casing, and each output
record's primaryName is the first row (in order) whose trimmed non-empty
name has the same lower-casing — first occurrence wins, later duplicates
are dropped.  The MD5-based id is modelled by an abstract injective id
function. -/
theorem processCompanyData_dedup (uid : JStr → JStr) (hinj : Function.Injective uid)
    (rows : List JStr) :
    (((ProcessSponsors.processCompanyData uid rows).map
        (fun p => lowerStr p.2.primaryName)).Nodup)
    ∧ (∀ s : JStr,
        s ∈ (ProcessSponsors.processCompanyData uid rows).map
          (fun p => lowerStr p.2.primaryName)
        ↔ ∃ row ∈ rows, jsTrim row ≠ [] ∧ lowerStr (jsTrim row) = s)
    ∧ (∀ p ∈ ProcessSponsors.processCompanyData uid rows,
        ((rows.map jsTrim).filter (fun m => decide (m ≠ []))).find?
          (fun m => decide (lowerStr m = lowerStr p.2.primaryName))
          = some p.2.primaryName) := by
  rw [processCompanyData_eq uid hinj rows]
  have hcomp : ((fun p => lowerStr p.2.primaryName) ∘ sponsorEntry uid) = lowerStr := rfl
  refine ⟨?_, ?_, ?_⟩
  · rw [List.map_map, hcomp]
    exact dedupNames_nodup_lower rows []
  · intro s
    rw [List.map_map, hcomp, dedupNames_mem_lower]
    constructor
    · exact fun h => h.2
    · exact fun h => ⟨List.not_mem_nil s, h⟩
  · intro p hp
    obtain ⟨n, hn, rfl⟩ := List.mem_map.mp hp
    exact (dedupNames_spec rows [] n hn).2

/-- Claim C8, witness: rows with a case-duplicate and a whitespace
variant collapse to one record whose primaryName is the first
occurrence. -/
theorem processCompanyData_dedup_witness :
    (((ProcessSponsors.processCompanyData id
        [("Acme BV").toList, ("ACME BV").toList, (" acme bv ").toList, ("Beta").toList]).map
      (fun p => lowerStr p.2.primaryName)).Nodup)
    ∧ ("acme bv").toList ∈ (ProcessSponsors.processCompanyData id
        [("Acme BV").toList, ("ACME BV").toList, (" acme bv ").toList, ("Beta").toList]).map
      (fun p => lowerStr p.2.primaryName) := by
  have h := processCompanyData_dedup id (fun a b hh => hh)
    [("Acme BV").toList, ("ACME BV").toList, (" acme bv ").toList, ("Beta").toList]
  exact ⟨h.1, (h.2.1 (("acme bv").toList)).mpr
    ⟨("Acme BV").toList, by decide, by decide, by decide⟩⟩

/-! ### Change-detection lemmas (C6) -/

theorem forall₂_of_map_eq {α : Type} (f : α → JStr) :
    ∀ (l1 l2 : List α), l1.map f = l2.map f →
      List.Forall₂ (fun a b => f a = f b) l1 l2 := by
  intro l1
  induction l1 with
  | nil =>
    intro l2 h
    cases l2 with
    | nil => exact List.Forall₂.nil
    | cons b bs => exact absurd h (by simp)
  | cons a as ih =>
    intro l2 h
    cases l2 with
    | nil => exact absurd h (by simp)
    | cons b bs =>
      rw [List.map_cons, List.map_cons] at h
      injection h with h1 h2
      exact List.Forall₂.cons h1 (ih bs h2)

theorem forall₂_swap {α β : Type} {R : α → β → Prop} :
    ∀ {l1 : List α} {l2 : List β}, List.Forall₂ R l1 l2 →
      List.Forall₂ (fun b a => R a b) l2 l1 := by
  intro l1 l2 h
  induction h with
  | nil => exact List.Forall₂.nil
  | cons h1 _ ih => exact List.Forall₂.cons h1 ih

theorem forall₂_and {α β : Type} {R S : α → β → Prop} :
    ∀ {l1 : List α} {l2 : List β}, List.Forall₂ R l1 l2 → List.Forall₂ S l1 l2 →
      List.Forall₂ (fun a b => R a b ∧ S a b) l1 l2 := by
  intro l1 l2 h
  induction h with
  | nil => intro _; exact List.Forall₂.nil
  | cons h1 _ ih =>
    intro hs
    cases hs with
    | cons hs1 hs2 => exact List.Forall₂.cons ⟨h1, hs1⟩ (ih hs2)

theorem partner_pack :
    ∀ (old new : List CompareData.CsvRecord),
      List.Forall₂ (fun o n => o.organisation = n.organisation) old new →
      ((old.map (fun r => lowerStr r.organisation)).Nodup) →
      ∀ (pre : List (JStr × CompareData.CsvRecord)),
        (∀ o ∈ old, assocGet pre (lowerStr o.organisation) = none) →
        List.Forall₂ (fun o n =>
          assocGet (pre ++ old.map (fun r => (lowerStr r.organisation, r)))
            (lowerStr n.organisation) = some o) old new := by
  intro old
  induction old with
  | nil =>
    intro new h _ pre _
    cases h
    exact List.Forall₂.nil
  | cons o os ih =>
    intro new h hnd pre hfresh
    cases h with
    | @cons _ n _ ns horg htail =>
      rw [List.map_cons] at hnd
      have hnd' := (List.nodup_cons.mp hnd).2
      have hhead := (List.nodup_cons.mp hnd).1
      refine List.Forall₂.cons ?_ ?_
      · rw [List.map_cons, assocGet_append,
          show lowerStr n.organisation = lowerStr o.organisation from by rw [horg],
          hfresh o (List.mem_cons_self o os), orElse_none]
        exact assocGet_cons_eq _ _ _
      · have hfresh' : ∀ q ∈ os,
            assocGet (pre ++ [(lowerStr o.organisation, o)]) (lowerStr q.organisation)
              = none := by
          intro q hq
          rw [assocGet_append, hfresh q (List.mem_cons_of_mem o hq), orElse_none]
          exact assocGet_cons_ne _ _ _ _
            (fun hh => hhead (hh ▸ List.mem_map_of_mem (fun r => lowerStr r.organisation) hq))
        have hmain := ih ns htail hnd' (pre ++ [(lowerStr o.organisation, o)]) hfresh'
        rw [List.append_assoc, List.singleton_append] at hmain
        rw [List.map_cons]
        exact hmain

theorem compare_core :
    ∀ (old new : List CompareData.CsvRecord)
      (M M' : List (JStr × CompareData.CsvRecord)),
      List.Forall₂ (fun o n =>
        assocGet M (lowerStr n.organisation) = some o
        ∧ assocGet M' (lowerStr o.organisation) = some n) old new →
      (new.filter (fun r => (assocGet M (lowerStr r.organisation)).isNone) = []
      ∧ old.filter (fun r => !(assocGet M' (lowerStr r.organisation)).isSome) = []
      ∧ (new.filterMap (fun r =>
          match assocGet M (lowerStr r.organisation) with
          | some o =>
            if o.kvk ≠ r.kvk then
              some ({ organisation := r.organisation, oldKvk := o.kvk, newKvk := r.kvk } : CompareData.ModEntry)
            else none
          | none => none)).length
        = ((old.zip new).countP (fun p => decide (p.1.kvk ≠ p.2.kvk)))) := by
  intro old
  induction old with
  | nil =>
    intro new M M' h
    cases h
    exact ⟨rfl, rfl, rfl⟩
  | cons o os ih =>
    intro new M M' h
    cases h with
    | @cons _ n _ ns hpair htail =>
      obtain ⟨h1, h2⟩ := hpair
      obtain ⟨ihA, ihR, ihM⟩ := ih ns M M' htail
      refine ⟨?_, ?_, ?_⟩
      · rw [List.filter_cons]
        simp only [h1, Option.isNone_some]
        rw [if_neg Bool.false_ne_true]
        exact ihA
      · rw [List.filter_cons]
        simp only [h2, Option.isSome_some, Bool.not_true]
        rw [if_neg Bool.false_ne_true]
        exact ihR
      · simp only [List.filterMap_cons, h1, List.zip_cons_cons, List.countP_cons]
        by_cases hk : o.kvk = n.kvk
        · rw [if_neg (fun hh => hh hk),
            show (decide (o.kvk ≠ n.kvk)) = false from decide_eq_false (fun hh => hh hk),
            if_neg Bool.false_ne_true, ihM, Nat.add_zero]
        · rw [if_pos hk,
            show (decide (o.kvk ≠ n.kvk)) = true from decide_eq_true hk,
            if_pos rfl, List.length_cons, ihM]

/-- Lookup in the Map built by compareData equals lookup in the
association list that pairs each record with its lower-cased organisation
name, when those keys are pairwise distinct. -/
theorem recordMap_get (rs : List CompareData.CsvRecord)
    (hnd : (rs.map (fun r => lowerStr r.organisation)).Nodup) (k : JStr) :
    assocGet (CompareData.recordMap rs) k
      = assocGet (rs.map (fun r => (lowerStr r.organisation, r))) k := by
  have hmap : CompareData.recordMap rs
      = (rs.map (fun r => (lowerStr r.organisation, r))).foldl
          (fun m p => jsSet m p.1 p.2) [] := by
    show rs.foldl (fun m r => jsSet m (lowerStr r.organisation) r) [] = _
    rw [List.foldl_map]
  have hnd2 : ((rs.map (fun r => (lowerStr r.organisation, r))).map Prod.fst).Nodup := by
    rw [List.map_map]
    exact hnd
  have hfresh : ∀ p ∈ rs.map (fun r => (lowerStr r.organisation, r)),
      assocGet ([] : List (JStr × CompareData.CsvRecord)) p.1 = none := by
    intro p _
    rfl
  rw [hmap, foldl_jsSet_fresh _ [] hnd2 hfresh k]
  rfl

/-- When the old and new record lists carry exactly the same organisation
names in order, and the lower-cased old names are pairwise distinct,
compareData finds no additions and no removals, its modified list counts
exactly the positions whose kvk field differs, and hasChanges reflects
that count. -/
theorem compareData_eq_core (old new : List CompareData.CsvRecord)
    (horg : old.map (fun r => r.organisation) = new.map (fun r => r.organisation))
    (hnd : (old.map (fun r => lowerStr r.organisation)).Nodup) :
    (CompareData.compareData old new).added = []
    ∧ (CompareData.compareData old new).removed = []
    ∧ (CompareData.compareData old new).modified.length
        = (old.zip new).countP (fun p => decide (p.1.kvk ≠ p.2.kvk))
    ∧ (CompareData.compareData old new).hasChanges
        = decide (0 < (old.zip new).countP (fun p => decide (p.1.kvk ≠ p.2.kvk))) := by
  have hF := forall₂_of_map_eq (fun r => r.organisation) old new horg
  have hlow : old.map (fun r => lowerStr r.organisation)
      = new.map (fun r => lowerStr r.organisation) := by
    have h2 := congrArg (List.map lowerStr) horg
    rw [List.map_map, List.map_map] at h2
    exact h2
  have hndnew : (new.map (fun r => lowerStr r.organisation)).Nodup := hlow ▸ hnd
  have pack1 := partner_pack old new hF hnd [] (fun o _ => rfl)
  simp only [List.nil_append] at pack1
  have pack1s : List.Forall₂ (fun o n =>
      assocGet (CompareData.recordMap old) (lowerStr n.organisation) = some o) old new :=
    List.Forall₂.imp (fun a b h => by rw [recordMap_get old hnd]; exact h) pack1
  have hFswap : List.Forall₂ (fun n o => n.organisation = o.organisation) new old :=
    List.Forall₂.imp (fun a b h => h.symm) (forall₂_swap hF)
  have pack2 := partner_pack new old hFswap hndnew [] (fun o _ => rfl)
  simp only [List.nil_append] at pack2
  have pack2s : List.Forall₂ (fun o n =>
      assocGet (CompareData.recordMap new) (lowerStr o.organisation) = some n) old new :=
    forall₂_swap
      (List.Forall₂.imp (fun a b h => by rw [recordMap_get new hndnew]; exact h) pack2)
  obtain ⟨c1, c2, c3⟩ := compare_core old new
    (CompareData.recordMap old) (CompareData.recordMap new) (forall₂_and pack1s pack2s)
  refine ⟨?_, ?_, ?_, ?_⟩
  · simp only [CompareData.compareData]
    exact c1
  · simp only [CompareData.compareData]
    exact c2
  · simp only [CompareData.compareData]
    exact c3
  · simp only [CompareData.compareData]
    rw [c1, c2, c3]
    rfl

/-- The middle part of the change-detection claim is false as stated: a
hash mismatch with literally identical parsed record lists can still be
reported as hasChanges true.  Two rows whose organisation names differ
only in case collapse to one key of the comparison Map, which keeps only
the later kvk, so the earlier row is reported as modified even when the
dataset is compared against itself. -/
theorem change_detection_cex :
    ¬ (∀ (hash : JStr → JStr) (lastHash : Option JStr) (oldC newC : JStr),
        lastHash ≠ some (hash newC) →
        CompareData.parseCSV oldC = CompareData.parseCSV newC →
        (CompareData.checkForChanges hash lastHash (some oldC) newC).hasChanges
          = false) := by
  intro h
  exact absurd
    (h (fun s => s) none (("Org,KvK\na,1\nA,2").toList) (("Org,KvK\na,1\nA,2").toList)
      (by decide) rfl)
    (by decide)

/-- C6, amended: change detection.  When the stored hash equals the hash
of the new content, checkForChanges answers hasChanges false with no
summary.  On a hash mismatch, the reported hasChanges is exactly the
hasChanges of compareData on the two parsed contents.  And whenever the
old and new record lists carry the same organisation names in order and
the lower-cased old names are pairwise distinct, compareData reports no
additions, no removals, and one modified entry per position whose kvk
field differs, so a change of exactly one kvk field yields exactly one
modified entry; with no kvk change at all, hasChanges is false. -/
theorem change_detection (hash : JStr → JStr) (lastHash : Option JStr)
    (previousCSV : Option JStr) (newC oldC : JStr)
    (old new : List CompareData.CsvRecord) :
    (lastHash = some (hash newC) →
      CompareData.checkForChanges hash lastHash previousCSV newC
        = { hasChanges := false, changeSummary := none, newHash := hash newC })
    ∧ (lastHash ≠ some (hash newC) → previousCSV = some oldC →
      (CompareData.checkForChanges hash lastHash previousCSV newC).hasChanges
        = (CompareData.compareData (CompareData.parseCSV oldC)
            (CompareData.parseCSV newC)).hasChanges)
    ∧ (old.map (fun r => r.organisation) = new.map (fun r => r.organisation) →
      (old.map (fun r => lowerStr r.organisation)).Nodup →
      ((CompareData.compareData old new).added = []
      ∧ (CompareData.compareData old new).removed = []
      ∧ (CompareData.compareData old new).modified.length
          = (old.zip new).countP (fun p => decide (p.1.kvk ≠ p.2.kvk))
      ∧ (CompareData.compareData old new).hasChanges
          = decide (0 < (old.zip new).countP (fun p => decide (p.1.kvk ≠ p.2.kvk))))) := by
  refine ⟨?_, ?_, ?_⟩
  · intro h
    simp only [CompareData.checkForChanges]
    rw [if_pos h]
  · intro hne hprev
    simp only [CompareData.checkForChanges]
    rw [if_neg hne]
    simp only [hprev]
    by_cases hs : (CompareData.compareData (CompareData.parseCSV oldC)
        (CompareData.parseCSV newC)).hasChanges = false
    · rw [if_pos hs, hs]
    · rw [if_neg hs]
      have ht : (CompareData.compareData (CompareData.parseCSV oldC)
          (CompareData.parseCSV newC)).hasChanges = true := by
        cases hx : (CompareData.compareData (CompareData.parseCSV oldC)
            (CompareData.parseCSV newC)).hasChanges
        · exact absurd hx hs
        · rfl
      rw [ht]
  · intro horg hnd
    exact compareData_eq_core old new horg hnd

/-- The three parts of the change-detection theorem at concrete inputs:
the fast path with a matching hash, the mismatch path on two concrete
CSV contents, and a two-row dataset in which exactly one kvk changed. -/
theorem change_detection_witness :
    CompareData.checkForChanges (fun s => s) (some (("x").toList)) none (("x").toList)
      = { hasChanges := false, changeSummary := none, newHash := ("x").toList }
    ∧ (CompareData.checkForChanges (fun s => s) none
        (some (("Org,KvK\nAcme,1\nBeta,2").toList))
        (("Org,KvK\nAcme,1\nBeta,9").toList)).hasChanges
      = (CompareData.compareData
          (CompareData.parseCSV (("Org,KvK\nAcme,1\nBeta,2").toList))
          (CompareData.parseCSV (("Org,KvK\nAcme,1\nBeta,9").toList))).hasChanges
    ∧ (CompareData.compareData
        [⟨("Acme").toList, ("1").toList⟩, ⟨("Beta").toList, ("2").toList⟩]
        [⟨("Acme").toList, ("1").toList⟩, ⟨("Beta").toList, ("9").toList⟩]).added = []
    ∧ (CompareData.compareData
        [⟨("Acme").toList, ("1").toList⟩, ⟨("Beta").toList, ("2").toList⟩]
        [⟨("Acme").toList, ("1").toList⟩, ⟨("Beta").toList, ("9").toList⟩]).removed = []
    ∧ (CompareData.compareData
        [⟨("Acme").toList, ("1").toList⟩, ⟨("Beta").toList, ("2").toList⟩]
        [⟨("Acme").toList, ("1").toList⟩, ⟨("Beta").toList, ("9").toList⟩]).modified.length
      = 1 := by
  obtain ⟨hA, hR, hM, _⟩ :=
    (change_detection (fun s => s) none none [] []
      [⟨("Acme").toList, ("1").toList⟩, ⟨("Beta").toList, ("2").toList⟩]
      [⟨("Acme").toList, ("1").toList⟩, ⟨("Beta").toList, ("9").toList⟩]).2.2
      (by decide) (by decide)
  refine ⟨(change_detection (fun s => s) (some (("x").toList)) none
      (("x").toList) [] [] []).1 rfl,
    (change_detection (fun s => s) none (some (("Org,KvK\nAcme,1\nBeta,2").toList))
      (("Org,KvK\nAcme,1\nBeta,9").toList) (("Org,KvK\nAcme,1\nBeta,2").toList) [] []).2.1
      (by decide) rfl,
    hA, hR, hM.trans (by decide)⟩

/-! ### Splitter lemmas (C7) -/

theorem lexLe_refl (a : List Char) : SplitSponsors.lexLe a a = true := by
  induction a with
  | nil => rfl
  | cons x xs ih =>
    show (if x = x then SplitSponsors.lexLe xs xs else decide (x < x)) = true
    rw [if_pos rfl]
    exact ih

theorem lexLe_trans (a : List Char) : ∀ b c, SplitSponsors.lexLe a b = true →
    SplitSponsors.lexLe b c = true → SplitSponsors.lexLe a c = true := by
  induction a with
  | nil => intro b c _ _; rfl
  | cons x xs ih =>
    intro b c hab hbc
    cases b with
    | nil => exact absurd hab Bool.false_ne_true
    | cons y ys =>
      cases c with
      | nil => exact absurd hbc Bool.false_ne_true
      | cons z zs =>
        have hab2 : (if x = y then SplitSponsors.lexLe xs ys else decide (x < y)) = true := hab
        have hbc2 : (if y = z then SplitSponsors.lexLe ys zs else decide (y < z)) = true := hbc
        show (if x = z then SplitSponsors.lexLe xs zs else decide (x < z)) = true
        by_cases h1 : x = y
        · subst h1
          rw [if_pos rfl] at hab2
          by_cases h2 : x = z
          · subst h2
            rw [if_pos rfl] at hbc2
            rw [if_pos rfl]
            exact ih ys zs hab2 hbc2
          · rw [if_neg h2] at hbc2
            rw [if_neg h2]
            exact hbc2
        · rw [if_neg h1] at hab2
          have hxy : x < y := of_decide_eq_true hab2
          by_cases h2 : y = z
          · subst h2
            rw [if_neg h1]
            exact hab2
          · rw [if_neg h2] at hbc2
            have hyz : y < z := of_decide_eq_true hbc2
            have hxz : x < z := lt_trans hxy hyz
            rw [if_neg (fun (hh : x = z) => absurd (hh ▸ hxz) (lt_irrefl z))]
            exact decide_eq_true hxz

theorem lexLe_total (a : List Char) : ∀ b, SplitSponsors.lexLe a b = true
    ∨ SplitSponsors.lexLe b a = true := by
  induction a with
  | nil => intro b; exact Or.inl rfl
  | cons x xs ih =>
    intro b
    cases b with
    | nil => exact Or.inr rfl
    | cons y ys =>
      show (if x = y then SplitSponsors.lexLe xs ys else decide (x < y)) = true
        ∨ (if y = x then SplitSponsors.lexLe ys xs else decide (y < x)) = true
      by_cases h1 : x = y
      · subst h1
        rw [if_pos rfl, if_pos rfl]
        exact ih ys
      · rcases lt_or_gt_of_ne h1 with hlt | hgt
        · exact Or.inl (by rw [if_neg h1]; exact decide_eq_true hlt)
        · exact Or.inr (by rw [if_neg (fun hh => h1 hh.symm)]; exact decide_eq_true hgt)

instance : IsTotal (JStr × SponsorRec) SplitSponsors.nameLe :=
  ⟨fun a b => lexLe_total _ _⟩

instance : IsTrans (JStr × SponsorRec) SplitSponsors.nameLe :=
  ⟨fun _ _ _ hab hbc => lexLe_trans _ _ _ hab hbc⟩

theorem sorted_head_le (g : List (JStr × SponsorRec)) (hs : g.Pairwise SplitSponsors.nameLe)
    (f : JStr × SponsorRec) (hf : g.head? = some f) :
    ∀ x ∈ g, SplitSponsors.nameLe f x := by
  cases g with
  | nil => exact absurd hf (by simp)
  | cons a as =>
    have hf2 : some a = some f := hf
    injection hf2 with ha
    subst ha
    intro x hx
    rcases List.mem_cons.mp hx with h | h
    · subst h
      exact lexLe_refl _
    · exact (List.pairwise_cons.mp hs).1 x h

theorem sorted_le_last : ∀ (g : List (JStr × SponsorRec)),
    g.Pairwise SplitSponsors.nameLe → ∀ lmem, g.getLast? = some lmem →
    ∀ x ∈ g, SplitSponsors.nameLe x lmem := by
  intro g
  induction g with
  | nil =>
    intro _ lmem hl
    exact absurd hl (by simp)
  | cons a as ih =>
    intro hs lmem hl x hx
    cases as with
    | nil =>
      rw [List.getLast?_singleton] at hl
      injection hl with ha
      subst ha
      rw [List.mem_singleton] at hx
      subst hx
      exact lexLe_refl _
    | cons b bs =>
      rw [List.getLast?_cons_cons] at hl
      rcases List.mem_cons.mp hx with h | h
      · subst h
        exact (List.pairwise_cons.mp hs).1 lmem (List.mem_of_mem_getLast? hl)
      · exact ih (List.pairwise_cons.mp hs).2 lmem hl x h

theorem firstLetterUpper_of_ne (r : SponsorRec) (h : r.primaryName ≠ []) :
    ∃ a, SplitSponsors.firstLetterUpper r = some a := by
  cases hp : r.primaryName with
  | nil => exact absurd hp h
  | cons c cs =>
    refine ⟨asciiUpper c, ?_⟩
    unfold SplitSponsors.firstLetterUpper
    rw [hp]

/-- The splitter claim is false as stated: on a dataset of one sponsor the
first group takes the single entry and the second and third groups are
empty, so their declared ranges read the first member of an empty group,
which does not exist (the script throws there, modelled as boundary none). -/
theorem split_cex :
    ¬ (∀ (entries : List (JStr × SponsorRec)), entries ≠ [] →
        List.Pairwise List.Disjoint (SplitSponsors.splitGroups entries)
        ∧ ((SplitSponsors.splitGroups entries).flatten).Perm entries
        ∧ ∀ g ∈ SplitSponsors.splitGroups entries,
            ∃ f lmem a b, g.head? = some f ∧ g.getLast? = some lmem
              ∧ SplitSponsors.firstLetterUpper f.2 = some a
              ∧ SplitSponsors.firstLetterUpper lmem.2 = some b
              ∧ SplitSponsors.groupBoundary g = some (a, b)) := by
  intro h
  obtain ⟨-, -, h3⟩ := h [(("a1").toList, { primaryName := ("Acme").toList })]
    (List.cons_ne_nil _ _)
  have hgeq : SplitSponsors.splitGroups
      [(("a1").toList, { primaryName := ("Acme").toList })]
      = [[(("a1").toList, { primaryName := ("Acme").toList })], [], []] := rfl
  obtain ⟨f, lmem, a, b, hf, -⟩ :=
    h3 [] (by rw [hgeq]; exact List.mem_cons_of_mem _ (List.mem_cons_self _ _))
  exact Option.noConfusion hf

/-- C7, amended: for a dataset in which no record has an empty primary
name, no two entries coincide, and the three cut groups are all
non-empty, the three groups concatenate to exactly the sorted entry list,
they form a permutation of the input entries (no record lost, none
duplicated), they are pairwise disjoint, and each group is sorted and has
a declared range equal to the upper-cased first letters of the primary
names of its alphabetically first and last member.  Without the
non-emptiness conditions the script throws, see the counterexample. -/
theorem split_correct (entries : List (JStr × SponsorRec))
    (hg : ∀ g ∈ SplitSponsors.splitGroups entries, g ≠ [])
    (hname : ∀ p ∈ entries, p.2.primaryName ≠ [])
    (hnd : entries.Nodup) :
    (SplitSponsors.splitGroups entries).flatten = SplitSponsors.sortSponsors entries
    ∧ ((SplitSponsors.splitGroups entries).flatten).Perm entries
    ∧ List.Pairwise List.Disjoint (SplitSponsors.splitGroups entries)
    ∧ ∀ g ∈ SplitSponsors.splitGroups entries,
        g.Pairwise SplitSponsors.nameLe
        ∧ ∃ f lmem a b, g.head? = some f ∧ g.getLast? = some lmem
            ∧ (∀ x ∈ g, SplitSponsors.nameLe f x ∧ SplitSponsors.nameLe x lmem)
            ∧ SplitSponsors.firstLetterUpper f.2 = some a
            ∧ SplitSponsors.firstLetterUpper lmem.2 = some b
            ∧ SplitSponsors.groupBoundary g = some (a, b) := by
  have hflat : (SplitSponsors.splitGroups entries).flatten
      = SplitSponsors.sortSponsors entries := by
    simp only [SplitSponsors.splitGroups, List.flatten_cons, List.flatten_nil,
      List.append_nil]
    rw [show 2 * SplitSponsors.splitSize (SplitSponsors.sortSponsors entries).length
          = SplitSponsors.splitSize (SplitSponsors.sortSponsors entries).length
            + SplitSponsors.splitSize (SplitSponsors.sortSponsors entries).length
        from two_mul _]
    rw [← List.drop_drop, List.take_append_drop, List.take_append_drop]
  have hperm : ((SplitSponsors.splitGroups entries).flatten).Perm entries := by
    rw [hflat]
    exact List.perm_insertionSort _ entries
  have hsorted : (SplitSponsors.sortSponsors entries).Pairwise SplitSponsors.nameLe :=
    List.sorted_insertionSort SplitSponsors.nameLe entries
  have hsub : ∀ g ∈ SplitSponsors.splitGroups entries,
      List.Sublist g (SplitSponsors.sortSponsors entries) := by
    intro g hgmem
    simp only [SplitSponsors.splitGroups, List.mem_cons, List.not_mem_nil,
      or_false] at hgmem
    rcases hgmem with h | h | h
    · exact h ▸ List.take_sublist _ _
    · exact h ▸ ((List.take_sublist _ _).trans (List.drop_sublist _ _))
    · exact h ▸ List.drop_sublist _ _
  have hndflat : ((SplitSponsors.splitGroups entries).flatten).Nodup :=
    hperm.nodup_iff.mpr hnd
  have hdisj := (List.nodup_flatten.mp hndflat).2
  refine ⟨hflat, hperm, hdisj, ?_⟩
  intro g hgmem
  have hgs : List.Sublist g (SplitSponsors.sortSponsors entries) := hsub g hgmem
  have hPg : g.Pairwise SplitSponsors.nameLe := hsorted.sublist hgs
  have hne := hg g hgmem
  have hment : ∀ x ∈ g, x ∈ entries := fun x hx =>
    (List.perm_insertionSort SplitSponsors.nameLe entries).subset (hgs.subset hx)
  obtain ⟨f, hf⟩ : ∃ f, g.head? = some f := by
    cases g with
    | nil => exact absurd rfl hne
    | cons a as => exact ⟨a, rfl⟩
  obtain ⟨lmem, hl⟩ : ∃ lmem, g.getLast? = some lmem :=
    Option.isSome_iff_exists.mp (List.getLast?_isSome.mpr hne)
  have hfmem : f ∈ g := by
    cases g with
    | nil => exact absurd rfl hne
    | cons a as =>
      have hf2 : some a = some f := hf
      injection hf2 with ha
      rw [← ha]
      exact List.mem_cons_self a as
  have hlmem : lmem ∈ g := List.mem_of_mem_getLast? hl
  obtain ⟨a, hfa⟩ := firstLetterUpper_of_ne f.2 (hname f (hment f hfmem))
  obtain ⟨b, hfb⟩ := firstLetterUpper_of_ne lmem.2 (hname lmem (hment lmem hlmem))
  refine ⟨hPg, f, lmem, a, b, hf, hl, ?_, hfa, hfb, ?_⟩
  · intro x hx
    exact ⟨sorted_head_le g hPg f hf x hx, sorted_le_last g hPg lmem hl x hx⟩
  · simp only [SplitSponsors.groupBoundary, hf, hl, hfa, hfb]

/-- The splitter theorem at a concrete three-sponsor dataset, where every
group is a non-empty singleton. -/
theorem split_correct_witness :
    (SplitSponsors.splitGroups
        [(("a1").toList, { primaryName := ("Acme").toList }),
         (("b1").toList, { primaryName := ("Beta").toList }),
         (("c1").toList, { primaryName := ("Cora").toList })]).flatten
      = SplitSponsors.sortSponsors
        [(("a1").toList, { primaryName := ("Acme").toList }),
         (("b1").toList, { primaryName := ("Beta").toList }),
         (("c1").toList, { primaryName := ("Cora").toList })]
    ∧ ((SplitSponsors.splitGroups
        [(("a1").toList, { primaryName := ("Acme").toList }),
         (("b1").toList, { primaryName := ("Beta").toList }),
         (("c1").toList, { primaryName := ("Cora").toList })]).flatten).Perm
        [(("a1").toList, { primaryName := ("Acme").toList }),
         (("b1").toList, { primaryName := ("Beta").toList }),
         (("c1").toList, { primaryName := ("Cora").toList })]
    ∧ List.Pairwise List.Disjoint (SplitSponsors.splitGroups
        [(("a1").toList, { primaryName := ("Acme").toList }),
         (("b1").toList, { primaryName := ("Beta").toList }),
         (("c1").toList, { primaryName := ("Cora").toList })])
    ∧ ∀ g ∈ SplitSponsors.splitGroups
        [(("a1").toList, { primaryName := ("Acme").toList }),
         (("b1").toList, { primaryName := ("Beta").toList }),
         (("c1").toList, { primaryName := ("Cora").toList })],
        g.Pairwise SplitSponsors.nameLe
        ∧ ∃ f lmem a b, g.head? = some f ∧ g.getLast? = some lmem
            ∧ (∀ x ∈ g, SplitSponsors.nameLe f x ∧ SplitSponsors.nameLe x lmem)
            ∧ SplitSponsors.firstLetterUpper f.2 = some a
            ∧ SplitSponsors.firstLetterUpper lmem.2 = some b
            ∧ SplitSponsors.groupBoundary g = some (a, b) :=
  split_correct
    [(("a1").toList, { primaryName := ("Acme").toList }),
     (("b1").toList, { primaryName := ("Beta").toList }),
     (("c1").toList, { primaryName := ("Cora").toList })]
    (by decide) (by decide) (by decide)
end KMatch
